import Mathlib

/-!
# NEG controller core: a shallow embedding

This file embeds the syncer-manager core of the NEG (network endpoint
group) controller and proves the specification's claims about it.

Embedded from the source:
* `serviceKey`, `servicePort`, the `syncerManager` state with its
  `svcPortMap` and `syncerMap`, and the operations `EnsureSyncers`,
  `StopSyncer`, `Sync`, `ShutDown`, `garbageCollectSyncer`,
  `getAllStoppedSyncerKeys`, `garbageCollectNEG`,
  `ensureDeleteNetworkEndpointGroup` and `GC` (manager.go).
* A cloud-state model for the `NetworkEndpointGroupCloud` interface,
  with a fault schedule so that transient errors of `Get`/`Delete`
  can be exercised, and an operation trace recording which cloud
  calls were issued.

Modelled from the spec (their source files are not part of the
repository snapshot; only interfaces and tests are): the syncer state
machine (`Start`/`Stop`/`IsStopped`/`IsShuttingDown`),
`PortNameMap.Difference`, the retry/backoff loop, and the
application-protocol annotation parser.  Each such definition carries a
doc comment saying so.

Go maps are modelled as association lists whose keys are unique; map
iteration is modelled as iteration over the list, which fixes one of
the iteration orders Go may choose.
-/

namespace NegController

/-! ## Association-list helpers (the Go `map` operations used) -/

/-- Lookup in an association list: the Go `v, ok := m[k]` read. -/
def alookup {α β : Type} [DecidableEq α] (k : α) : List (α × β) → Option β
  | [] => none
  | e :: t => if e.1 = k then some e.2 else alookup k t

/-- Update/insert: the Go `m[k] = v` write.  Keeps keys unique. -/
def aupdate {α β : Type} [DecidableEq α] (k : α) (v : β) (l : List (α × β)) :
    List (α × β) :=
  (k, v) :: l.filter (fun e => ¬ e.1 = k)

/-- Removal: the Go `delete(m, k)`. -/
def aerase {α β : Type} [DecidableEq α] (k : α) (l : List (α × β)) :
    List (α × β) :=
  l.filter (fun e => ¬ e.1 = k)

theorem alookup_filter_ne {α β : Type} [DecidableEq α] (k : α)
    (l : List (α × β)) :
    alookup k (l.filter (fun e => ¬ e.1 = k)) = none := by
  induction l with
  | nil => rfl
  | cons e t ih =>
    by_cases he : e.1 = k
    · simpa [List.filter_cons, he] using ih
    · simpa [List.filter_cons, he, alookup] using ih

theorem alookup_filter_other {α β : Type} [DecidableEq α] {k k' : α}
    (l : List (α × β)) (h : k' ≠ k) :
    alookup k' (l.filter (fun e => ¬ e.1 = k)) = alookup k' l := by
  induction l with
  | nil => rfl
  | cons e t ih =>
    by_cases he : e.1 = k
    · have hk : k ≠ k' := Ne.symm h
      simpa [List.filter_cons, he, alookup, hk] using ih
    · by_cases he' : e.1 = k'
      · simp [List.filter_cons, he, alookup, he', h]
      · simpa [List.filter_cons, he, alookup, he'] using ih

theorem alookup_aupdate_self {α β : Type} [DecidableEq α] (k : α) (v : β)
    (l : List (α × β)) : alookup k (aupdate k v l) = some v := by
  simp [aupdate, alookup]

theorem alookup_aupdate_ne {α β : Type} [DecidableEq α] {k k' : α} (v : β)
    (l : List (α × β)) (h : k' ≠ k) :
    alookup k' (aupdate k v l) = alookup k' l := by
  have hne : k ≠ k' := fun h' => h h'.symm
  simp only [aupdate, alookup, hne, if_neg]
  exact alookup_filter_other l h

theorem alookup_aerase_self {α β : Type} [DecidableEq α] (k : α)
    (l : List (α × β)) : alookup k (aerase k l) = none :=
  alookup_filter_ne k l

theorem alookup_aerase_ne {α β : Type} [DecidableEq α] {k k' : α}
    (l : List (α × β)) (h : k' ≠ k) :
    alookup k' (aerase k l) = alookup k' l :=
  alookup_filter_other l h

theorem alookup_mem {α β : Type} [DecidableEq α] {k : α} {v : β}
    {l : List (α × β)} (h : alookup k l = some v) : (k, v) ∈ l := by
  induction l with
  | nil => simp [alookup] at h
  | cons e t ih =>
    by_cases he : e.1 = k
    · simp only [alookup, he, if_pos] at h
      cases h
      have : e = (k, e.2) := by
        cases e
        simp_all
      rw [← this]
      exact List.mem_cons_self e t
    · simp only [alookup, he, if_neg, not_false_iff] at h
      exact List.mem_cons_of_mem _ (ih h)

/-! ## Data model: keys and port maps -/

/-- Source `serviceKey`: namespace and name of a Service. -/
structure serviceKey where
  ns : String
  name : String
deriving DecidableEq, Repr

/-- Source `servicePort` (the syncer key): namespace, name, service port
and target port. -/
structure servicePort where
  ns : String
  name : String
  port : Int
  targetPort : String
deriving DecidableEq, Repr

/-- Source `PortNameMap`: `map[int32]string` from service port to target
port, as an association list with unique keys. -/
abbrev PortNameMap : Type := List (Int × String)

/-- Modelled from the spec: `Difference` of two port-name maps — the set
of `(port, targetPort)` entries present in the first map and not present
in the second (the function's own source file is not in the snapshot;
the spec diffs the incoming map against the stored one entry-wise to
obtain the removed and the added `(port, targetPort)` pairs). -/
def PortNameMap.Difference (p1 p2 : PortNameMap) : PortNameMap :=
  p1.filter (fun e => ¬ alookup e.1 p2 = some e.2)

/-- Source `getSyncerKey`. -/
def getSyncerKey (ns name : String) (port : Int) (targetPort : String) :
    servicePort :=
  { ns := ns, name := name, port := port, targetPort := targetPort }

/-- Source `getServiceKey`. -/
def getServiceKey (ns name : String) : serviceKey :=
  { ns := ns, name := name }

/-! ## The syncer state machine

The syncer implementation file is not part of the snapshot (only the
`negSyncer` interface and the syncer test are), so its state machine is
modelled from the spec. -/

/-- Error returned by `negSyncer.Start`. -/
inductive startErr where
  | alreadyRunning
  | stillShuttingDown
deriving DecidableEq, Repr

/-- Modelled from the spec: the syncer's externally visible state.  The
spec's states are `Stopped`, `Running` and `ShuttingDown`; per the
syncer test a syncer reports both `IsStopped` and `IsShuttingDown`
while it shuts down, so the state is a pair of flags.  `pokes` counts
`Sync()` signals.  `id` stands for the identity of the syncer object,
so that a reused object can be told from a freshly constructed one. -/
structure negSyncer where
  id : Nat
  stopped : Bool
  shuttingDown : Bool
  pokes : Nat
deriving DecidableEq, Repr

/-- Modelled from the spec: a freshly constructed syncer is stopped and
not shutting down. -/
def newSyncer (id : Nat) : negSyncer :=
  { id := id, stopped := true, shuttingDown := false, pokes := 0 }

/-- Source interface `negSyncer.IsStopped`. -/
def negSyncer.IsStopped (s : negSyncer) : Bool := s.stopped

/-- Source interface `negSyncer.IsShuttingDown`. -/
def negSyncer.IsShuttingDown (s : negSyncer) : Bool := s.shuttingDown

/-- Modelled from the spec: `start()` requires the syncer to be stopped
and not shutting down; it errors otherwise and marks the syncer running
on success. -/
def negSyncer.Start (s : negSyncer) : negSyncer × Option startErr :=
  if ¬ s.stopped then (s, some startErr.alreadyRunning)
  else if s.shuttingDown then (s, some startErr.stillShuttingDown)
  else ({ s with stopped := false }, none)

/-- Modelled from the spec: `stop()` from `Running` marks the syncer
stopped and shutting down; from any other state it is a no-op. -/
def negSyncer.Stop (s : negSyncer) : negSyncer :=
  if ¬ s.stopped then { s with stopped := true, shuttingDown := true }
  else s

/-- Modelled from the spec: `sync()` pokes the syncer. -/
def negSyncer.Sync (s : negSyncer) : negSyncer :=
  { s with pokes := s.pokes + 1 }

/-- Modelled from the spec: the asynchronous completion of a shutdown —
the loop observes `ShuttingDown` at an iteration boundary and the
syncer becomes plain `Stopped`. -/
def negSyncer.finishShutdown (s : negSyncer) : negSyncer :=
  { s with shuttingDown := false }

/-- A syncer is running iff it is not stopped. -/
def negSyncer.running (s : negSyncer) : Bool := ¬ s.stopped

/-! ## The syncer manager -/

/-- Source `syncerManager` state: the canonical service→ports map and
the registry of syncers.  `nextId` feeds fresh syncer identities. -/
structure syncerManager where
  svcPortMap : List (serviceKey × PortNameMap)
  syncerMap : List (servicePort × negSyncer)
  nextId : Nat

/-- Source `newSyncerManager` (the parts relevant here): empty maps. -/
def newSyncerManager : syncerManager :=
  { svcPortMap := [], syncerMap := [], nextId := 0 }

/-- One iteration of the `removes` loop of `EnsureSyncers` (and of the
loop of `StopSyncer`): look the key up and `Stop()` it when present. -/
def stopOne (ns name : String) (mp : List (servicePort × negSyncer))
    (e : Int × String) : List (servicePort × negSyncer) :=
  match alookup (getSyncerKey ns name e.1 e.2) mp with
  | some sy => aupdate (getSyncerKey ns name e.1 e.2) sy.Stop mp
  | none => mp

/-- The loop over `removes` in `EnsureSyncers`. -/
def stopRemoves (ns name : String) (removes : PortNameMap)
    (mp : List (servicePort × negSyncer)) : List (servicePort × negSyncer) :=
  removes.foldl (stopOne ns name) mp

/-- One iteration of the `adds` loop of `EnsureSyncers`: ensure a syncer
object exists for the key (constructing a fresh one only when the key is
absent from the registry), then `Start()` it when it is stopped,
collecting the start error. -/
def addOne (ns name : String)
    (acc : List (servicePort × negSyncer) × Nat × List startErr)
    (e : Int × String) :
    List (servicePort × negSyncer) × Nat × List startErr :=
  let k := getSyncerKey ns name e.1 e.2
  let present :=
    match alookup k acc.1 with
    | some sy => (sy, acc.1, acc.2.1)
    | none =>
        let sy := newSyncer acc.2.1
        (sy, aupdate k sy acc.1, acc.2.1 + 1)
  let sy := present.1
  if sy.IsStopped then
    let started := sy.Start
    (aupdate k started.1 present.2.1, present.2.2,
      acc.2.2 ++ started.2.toList)
  else
    (present.2.1, present.2.2, acc.2.2)

/-- The loop over `adds` in `EnsureSyncers`. -/
def startAdds (ns name : String) (adds : PortNameMap)
    (mp : List (servicePort × negSyncer)) (nid : Nat) :
    List (servicePort × negSyncer) × Nat × List startErr :=
  adds.foldl (addOne ns name) (mp, nid, [])

/-- Source `utilerrors.NewAggregate`: `nil` for an empty error list, the
composite of the list otherwise. -/
def NewAggregate (l : List startErr) : Option (List startErr) :=
  if l.isEmpty then none else some l

/-- Source `syncerManager.EnsureSyncers`: diff the incoming port map
against the stored one, store the new map, `Stop()` the removed keys'
syncers, ensure and `Start()` syncers for the added keys, and return
the aggregate of the start errors. -/
def EnsureSyncers (ns name : String) (newPorts : PortNameMap)
    (m : syncerManager) : syncerManager × Option (List startErr) :=
  let key := getServiceKey ns name
  let currentPorts := (alookup key m.svcPortMap).getD []
  let removes := currentPorts.Difference newPorts
  let adds := newPorts.Difference currentPorts
  let spm := aupdate key newPorts m.svcPortMap
  let smap1 := stopRemoves ns name removes m.syncerMap
  let res := startAdds ns name adds smap1 m.nextId
  ({ svcPortMap := spm, syncerMap := res.1, nextId := res.2.1 },
    NewAggregate res.2.2)

/-- Source `syncerManager.StopSyncer`: stop every syncer registered for
the service's stored ports and remove the service entry. -/
def StopSyncer (ns name : String) (m : syncerManager) : syncerManager :=
  match alookup (getServiceKey ns name) m.svcPortMap with
  | some ports =>
      { svcPortMap := aerase (getServiceKey ns name) m.svcPortMap,
        syncerMap := stopRemoves ns name ports m.syncerMap,
        nextId := m.nextId }
  | none => m

/-- One iteration of the loop of `Sync`: poke the syncer at the key
when it is registered and not stopped. -/
def syncOne (ns name : String) (mp : List (servicePort × negSyncer))
    (e : Int × String) : List (servicePort × negSyncer) :=
  match alookup (getSyncerKey ns name e.1 e.2) mp with
  | some sy =>
      if ¬ sy.IsStopped then
        aupdate (getSyncerKey ns name e.1 e.2) sy.Sync mp
      else mp
  | none => mp

/-- Source `syncerManager.Sync`: poke every non-stopped syncer
registered for the service's stored ports. -/
def Sync (ns name : String) (m : syncerManager) : syncerManager :=
  match alookup (getServiceKey ns name) m.svcPortMap with
  | some ports =>
      { m with syncerMap := ports.foldl (syncOne ns name) m.syncerMap }
  | none => m

/-- Source `syncerManager.ShutDown`: stop every syncer. -/
def ShutDown (m : syncerManager) : syncerManager :=
  { m with syncerMap := m.syncerMap.map (fun e => (e.1, e.2.Stop)) }

/-- Source `syncerManager.garbageCollectSyncer`: drop the registry entry
when the syncer is stopped and not shutting down. -/
def garbageCollectSyncer (key : servicePort) (m : syncerManager) :
    syncerManager :=
  match alookup key m.syncerMap with
  | some sy =>
      if sy.IsStopped ∧ ¬ sy.IsShuttingDown then
        { m with syncerMap := aerase key m.syncerMap }
      else m
  | none => m

/-- Source `syncerManager.getAllStoppedSyncerKeys`. -/
def getAllStoppedSyncerKeys (m : syncerManager) : List servicePort :=
  (m.syncerMap.filter (fun e => e.2.IsStopped)).map (fun e => e.1)

/-- The asynchronous shutdown-completion event for the syncer at `key`:
its worker loop exits and clears the shutting-down flag. -/
def finishShutdownAt (key : servicePort) (m : syncerManager) :
    syncerManager :=
  match alookup key m.syncerMap with
  | some sy =>
      if sy.stopped ∧ sy.shuttingDown then
        { m with syncerMap := aupdate key sy.finishShutdown m.syncerMap }
      else m
  | none => m

/-! ## The cloud NEG facade

The manager's GC talks to the cloud through the
`NetworkEndpointGroupCloud` interface.  The cloud is modelled as the set
of `(zone, name)` NEGs present, together with a fault schedule saying
which `Get`/`Delete` calls fail transiently (the interface allows every
call to fail) and a trace of the operations issued. -/

/-- One cloud API call, as recorded in the trace. -/
inductive CloudOp where
  | getOp (name zone : String)
  | deleteOp (name zone : String)
deriving DecidableEq, Repr

/-- A cloud error: `NotFound` is the distinguished error; everything
else is a transient failure. -/
inductive cloudErr where
  | notFound
  | transient
deriving DecidableEq, Repr

/-- The cloud state: NEGs present as `(zone, name)` pairs, the fault
schedule (`(name, zone)` pairs whose `Get` respectively `Delete` fail
transiently, and whether `AggregatedList` fails), and the trace of
issued calls. -/
structure CloudState where
  negs : List (String × String)
  getFaults : List (String × String)
  deleteFaults : List (String × String)
  aggFault : Bool
  trace : List CloudOp
deriving DecidableEq, Repr

/-- `GetNetworkEndpointGroup`: errs transiently per the fault schedule,
reports `notFound` when the NEG is absent, succeeds otherwise. -/
def GetNetworkEndpointGroup (name zone : String) (s : CloudState) :
    CloudState × Option cloudErr :=
  let s1 := { s with trace := s.trace ++ [CloudOp.getOp name zone] }
  if (name, zone) ∈ s.getFaults then (s1, some cloudErr.transient)
  else if (zone, name) ∈ s.negs then (s1, none)
  else (s1, some cloudErr.notFound)

/-- `DeleteNetworkEndpointGroup`: errs transiently per the fault
schedule, removes a present NEG, reports `notFound` otherwise. -/
def DeleteNetworkEndpointGroup (name zone : String) (s : CloudState) :
    CloudState × Option cloudErr :=
  let s1 := { s with trace := s.trace ++ [CloudOp.deleteOp name zone] }
  if (name, zone) ∈ s.deleteFaults then (s1, some cloudErr.transient)
  else if (zone, name) ∈ s.negs then
    ({ s1 with negs := s1.negs.filter (fun e => ¬ e = (zone, name)) }, none)
  else (s1, some cloudErr.notFound)

/-- The zones occurring in an aggregated listing, in first-occurrence
order. -/
def zonesOf (negs : List (String × String)) : List String :=
  (negs.map (fun e => e.1)).dedup

/-- `AggregatedListNetworkEndpointGroup`: the `zone → [NEG name]` map of
the current cloud state, or a failure per the fault schedule. -/
def AggregatedListNetworkEndpointGroup (s : CloudState) :
    Option (List (String × List String)) :=
  if s.aggFault then none
  else
    some ((zonesOf s.negs).map
      (fun z => (z, (s.negs.filter (fun e => e.1 = z)).map (fun e => e.2))))

/-- The namer consumed by the manager (`networkEndpointGroupNamer`). -/
structure negNamer where
  NEG : String → String → Int → String
  IsNEG : String → Bool

/-- The error returned by the NEG garbage collection: either the
aggregated listing failed, or deleting the named NEG in the named zone
failed (the `fmt.Errorf` wrapping of the first failed deletion). -/
inductive gcErr where
  | aggListFailed
  | deleteFailed (name zone : String)
deriving DecidableEq, Repr

/-- Source `syncerManager.ensureDeleteNetworkEndpointGroup`: `Get` the
NEG; on any error assume the NEG does not exist and return success;
otherwise `Delete` it and return the deletion's outcome. -/
def ensureDeleteNetworkEndpointGroup (name zone : String) (s : CloudState) :
    CloudState × Option cloudErr :=
  let g := GetNetworkEndpointGroup name zone s
  match g.2 with
  | some _ => (g.1, none)
  | none => DeleteNetworkEndpointGroup name zone g.1

/-- The inner loop of the orphan-deletion pass: delete each name in one
zone, returning at the first failure. -/
def deleteNames (zone : String) (names : List String) (s : CloudState) :
    CloudState × Option gcErr :=
  match names with
  | [] => (s, none)
  | n :: t =>
      let r := ensureDeleteNetworkEndpointGroup n zone s
      match r.2 with
      | some _ => (r.1, some (gcErr.deleteFailed n zone))
      | none => deleteNames zone t r.1

/-- The outer loop of the orphan-deletion pass: iterate the zones of the
aggregated listing, returning at the first failure. -/
def deleteOrphans (zones : List String) (names : List String)
    (s : CloudState) : CloudState × Option gcErr :=
  match zones with
  | [] => (s, none)
  | z :: t =>
      let r := deleteNames z names s
      match r.2 with
      | some e => (r.1, some e)
      | none => deleteOrphans t names r.1

/-- The live NEG names: `namer.NEG(ns, svc, port)` for every port of
every entry of `svcPortMap`. -/
def liveNames (nm : negNamer) (spm : List (serviceKey × PortNameMap)) :
    List String :=
  spm.foldr
    (fun e acc => e.2.map (fun pt => nm.NEG e.1.ns e.1.name pt.1) ++ acc) []

/-- Source `syncerManager.garbageCollectNEG`: aggregively list the cloud
NEGs, keep the names the namer recognizes, drop the live ones, and
delete each remaining orphan name in each listed zone, returning at the
first failure. -/
def garbageCollectNEG (nm : negNamer) (m : syncerManager) (s : CloudState) :
    CloudState × Option gcErr :=
  match AggregatedListNetworkEndpointGroup s with
  | none => (s, some gcErr.aggListFailed)
  | some zoneNEGList =>
      let negNames0 :=
        (((zoneNEGList.map (fun e => e.2)).flatten).filter nm.IsNEG).dedup
      let live := liveNames nm m.svcPortMap
      let negNames := negNames0.filter (fun n => ¬ n ∈ live)
      deleteOrphans (zoneNEGList.map (fun e => e.1)) negNames s

/-- Source `syncerManager.GC`: collect the stopped, not-shutting-down
syncers out of the registry, then garbage collect the cloud NEGs. -/
def GC (nm : negNamer) (m : syncerManager) (s : CloudState) :
    syncerManager × CloudState × Option gcErr :=
  let m1 := (getAllStoppedSyncerKeys m).foldl
    (fun mm k => garbageCollectSyncer k mm) m
  let r := garbageCollectNEG nm m1 s
  (m1, r.1, r.2)

/-! ## The application-protocol annotation

The annotation parser's source file is not in the snapshot (only its
test is), so it is modelled from the spec at the level of the decoded
JSON object `{port → protocol}`. -/

/-- The recognized application protocols. -/
inductive AppProtocol where
  | HTTP
  | HTTPS
  | HTTP2
deriving DecidableEq, Repr

/-- Application-protocol annotation errors. -/
inductive protocolErr where
  | invalidProtocol (port value : String)
  | unsupportedProtocol (port value : String)
deriving DecidableEq, Repr

/-- Modelled from the spec: one entry of the application-protocol
annotation accepts `"HTTP"`, `"HTTPS"` or `"HTTP2"`; `"HTTP2"` is
rejected with `UnsupportedProtocol` unless the HTTP/2 feature flag is
on; anything else is invalid. -/
def parseProtocol (http2Enabled : Bool) (port value : String) :
    Except protocolErr AppProtocol :=
  if value = "HTTP" then Except.ok AppProtocol.HTTP
  else if value = "HTTPS" then Except.ok AppProtocol.HTTPS
  else if value = "HTTP2" then
    if http2Enabled then Except.ok AppProtocol.HTTP2
    else Except.error (protocolErr.unsupportedProtocol port value)
  else Except.error (protocolErr.invalidProtocol port value)

/-- Modelled from the spec: parse the decoded application-protocol
annotation `{port → protocol}`, failing on the first bad entry. -/
def ApplicationProtocols (http2Enabled : Bool) :
    List (String × String) → Except protocolErr (List (String × AppProtocol))
  | [] => Except.ok []
  | (p, v) :: t =>
      match parseProtocol http2Enabled p v with
      | Except.error e => Except.error e
      | Except.ok a =>
          match ApplicationProtocols http2Enabled t with
          | Except.error e => Except.error e
          | Except.ok r => Except.ok ((p, a) :: r)

/-! ## The retry loop

The syncer's worker loop and backoff handler are not in the snapshot
(only the backoff constructor call and the retry test are), so the
retry behaviour under permanently failing reconciliation is modelled
from the spec. -/

/-- Modelled from the spec: the retry-relevant state of one syncer
worker whose reconciliations all fail.  `pending` says a sync is
scheduled (the initial trigger or a scheduled retry); `retryCount`
counts consecutive failures; `attempts` counts reconciliation
attempts. -/
structure retryState where
  running : Bool
  retryCount : Nat
  attempts : Nat
  pending : Bool
deriving DecidableEq, Repr

/-- Modelled from the spec: one iteration of the worker loop when every
reconciliation attempt fails.  A pending sync on a running syncer runs
the body (one failed attempt, one more consecutive failure) and
schedules a retry unless `maxRetries` is now exceeded, in which case the
fatal failure is recorded and no retry is scheduled — the syncer stays
running and idle. -/
def retryStep (maxRetries : Nat) (s : retryState) : retryState :=
  if s.running ∧ s.pending then
    let rc := s.retryCount + 1
    { s with
      attempts := s.attempts + 1
      retryCount := rc
      pending := decide (rc ≤ maxRetries) }
  else s

/-- Iterate the failing worker loop `n` times. -/
def retryLoop (maxRetries : Nat) : Nat → retryState → retryState
  | 0, s => s
  | n + 1, s => retryLoop maxRetries n (retryStep maxRetries s)

/-- Modelled from the spec: the state right after `Start()`, which
schedules an immediate sync. -/
def startedSyncerState : retryState :=
  { running := true, retryCount := 0, attempts := 0, pending := true }

/-- Modelled from the spec: an external `sync()` poke schedules a new
run. -/
def retryPoke (s : retryState) : retryState :=
  { s with pending := true }

/-- The worker state after `k` failed attempts under limit
`maxRetries`. -/
def midRetryState (maxRetries k : Nat) : retryState :=
  { running := true, retryCount := k, attempts := k,
    pending := decide (k ≤ maxRetries) }

/-- Whether the `adds` iteration of `EnsureSyncers` will fail to start
the syncer for entry `e` against registry `mp`: the only failing case is
a registered syncer that is stopped but still shutting down. -/
def startFails (ns name : String) (mp : List (servicePort × negSyncer))
    (e : Int × String) : Bool :=
  match alookup (getSyncerKey ns name e.1 e.2) mp with
  | some sy => sy.stopped && sy.shuttingDown
  | none => false

/-- The manager's state invariant:
(a) every running syncer's `(port, targetPort)` is an entry of the
    stored port map of its service;
(b) every stored port map has unique ports;
(c) every registered syncer's identity is below `nextId` (so `nextId`
    is genuinely fresh);
(d) the registry's keys are unique. -/
def managerInv (m : syncerManager) : Prop :=
  (∀ k sy, alookup k m.syncerMap = some sy → sy.stopped = false →
    ∃ pm, alookup (getServiceKey k.ns k.name) m.svcPortMap = some pm ∧
      alookup k.port pm = some k.targetPort) ∧
  (∀ sk pm, alookup sk m.svcPortMap = some pm → (pm.map Prod.fst).Nodup) ∧
  (∀ k sy, alookup k m.syncerMap = some sy → sy.id < m.nextId) ∧
  (m.syncerMap.map Prod.fst).Nodup

/-- The manager states reachable from the freshly constructed manager by
the manager's operations, the syncer-collection phase of `GC`, and the
asynchronous completion of syncer shutdowns.  Port maps handed to
`EnsureSyncers` are Go maps, so their ports are unique. -/
inductive Reachable : syncerManager → Prop where
  | init : Reachable newSyncerManager
  | ensure (ns name : String) (newPorts : PortNameMap) (m : syncerManager) :
      (newPorts.map Prod.fst).Nodup → Reachable m →
      Reachable (EnsureSyncers ns name newPorts m).1
  | stop (ns name : String) (m : syncerManager) :
      Reachable m → Reachable (StopSyncer ns name m)
  | sync (ns name : String) (m : syncerManager) :
      Reachable m → Reachable (Sync ns name m)
  | shutdown (m : syncerManager) : Reachable m → Reachable (ShutDown m)
  | gcSyncers (m : syncerManager) :
      Reachable m →
      Reachable ((getAllStoppedSyncerKeys m).foldl
        (fun mm k => garbageCollectSyncer k mm) m)
  | finish (key : servicePort) (m : syncerManager) :
      Reachable m → Reachable (finishShutdownAt key m)

/-! # Theorems -/

/-! ## The retry loop (claim C4) -/

theorem retryStep_midRetryState (mr k : Nat) :
    retryStep mr (midRetryState mr k) =
      if k ≤ mr then midRetryState mr (k + 1) else midRetryState mr k := by
  by_cases h : k ≤ mr
  · simp [retryStep, midRetryState, h]
  · simp [retryStep, midRetryState, h]

theorem retryLoop_midRetryState (mr : Nat) :
    ∀ (n k : Nat), k ≤ mr + 1 →
      retryLoop mr n (midRetryState mr k) =
        midRetryState mr (min (k + n) (mr + 1)) := by
  intro n
  induction n with
  | zero =>
    intro k hk
    simp [retryLoop, Nat.min_eq_left hk]
  | succ n ih =>
    intro k hk
    by_cases h : k ≤ mr
    · have : retryLoop mr (n + 1) (midRetryState mr k) =
          retryLoop mr n (midRetryState mr (k + 1)) := by
        simp [retryLoop, retryStep_midRetryState, h]
      rw [this, ih (k + 1) (Nat.succ_le_succ h)]
      congr 1
      omega
    · have hk1 : k = mr + 1 := by omega
      have : retryLoop mr (n + 1) (midRetryState mr k) =
          retryLoop mr n (midRetryState mr k) := by
        simp [retryLoop, retryStep_midRetryState, h]
      rw [this, ih k (le_of_eq hk1)]
      congr 1
      omega

/-- C4: when every reconciliation attempt fails, the worker loop makes
exactly `maxRetries + 1` attempts after the initial trigger (so 4 when
`maxRetries = 3`), then performs no further attempts (the reached state
is a fixed point of the loop) while remaining running, and a new
`sync()` poke re-enables exactly one next attempt. -/
theorem retry_gives_up_after_max_retries (mr n : Nat) (h : mr + 1 ≤ n) :
    (retryLoop mr n startedSyncerState).attempts = mr + 1 ∧
    (retryLoop mr n startedSyncerState).running = true ∧
    retryStep mr (retryLoop mr n startedSyncerState) =
      retryLoop mr n startedSyncerState ∧
    (retryStep mr (retryPoke (retryLoop mr n startedSyncerState))).attempts =
      mr + 2 := by
  have hstart : startedSyncerState = midRetryState mr 0 := by
    simp [startedSyncerState, midRetryState]
  have hrun : retryLoop mr n startedSyncerState = midRetryState mr (mr + 1) := by
    rw [hstart, retryLoop_midRetryState mr n 0 (Nat.zero_le _)]
    congr 1
    omega
  refine ⟨?_, ?_, ?_, ?_⟩
  · rw [hrun]; simp [midRetryState]
  · rw [hrun]; simp [midRetryState]
  · rw [hrun, retryStep_midRetryState]
    simp
  · rw [hrun]
    simp [retryPoke, retryStep, midRetryState]

theorem retry_gives_up_after_max_retries_witness :
    3 + 1 ≤ 10 ∧
    ((retryLoop 3 10 startedSyncerState).attempts = 3 + 1 ∧
     (retryLoop 3 10 startedSyncerState).running = true ∧
     retryStep 3 (retryLoop 3 10 startedSyncerState) =
       retryLoop 3 10 startedSyncerState ∧
     (retryStep 3 (retryPoke (retryLoop 3 10 startedSyncerState))).attempts =
       3 + 2) :=
  ⟨by decide, retry_gives_up_after_max_retries 3 10 (by decide)⟩

/-! ## Per-orphan deletion (claims C5 and C9) -/

/-- C5: deleting an orphan NEG that does not exist in the cloud (the
lookup reports an error, `NotFound` included) returns success, leaves
the set of cloud NEGs unchanged, and issues no delete call — the only
cloud call is the lookup. -/
theorem ensureDelete_absent_is_success (name zone : String) (s : CloudState)
    (h : (zone, name) ∉ s.negs) :
    (ensureDeleteNetworkEndpointGroup name zone s).2 = none ∧
    (ensureDeleteNetworkEndpointGroup name zone s).1.negs = s.negs ∧
    (ensureDeleteNetworkEndpointGroup name zone s).1.trace =
      s.trace ++ [CloudOp.getOp name zone] := by
  by_cases hf : (name, zone) ∈ s.getFaults
  · simp [ensureDeleteNetworkEndpointGroup, GetNetworkEndpointGroup, hf]
  · simp [ensureDeleteNetworkEndpointGroup, GetNetworkEndpointGroup, hf, h]

theorem ensureDelete_absent_is_success_witness :
    ("z", "n") ∉
      ({ negs := [], getFaults := [], deleteFaults := [], aggFault := false,
         trace := [] } : CloudState).negs ∧
    ((ensureDeleteNetworkEndpointGroup "n" "z"
        { negs := [], getFaults := [], deleteFaults := [], aggFault := false,
          trace := [] }).2 = none ∧
     (ensureDeleteNetworkEndpointGroup "n" "z"
        { negs := [], getFaults := [], deleteFaults := [], aggFault := false,
          trace := [] }).1.negs = [] ∧
     (ensureDeleteNetworkEndpointGroup "n" "z"
        { negs := [], getFaults := [], deleteFaults := [], aggFault := false,
          trace := [] }).1.trace = [] ++ [CloudOp.getOp "n" "z"]) :=
  ⟨by decide,
    ensureDelete_absent_is_success "n" "z"
      { negs := [], getFaults := [], deleteFaults := [], aggFault := false,
        trace := [] } (by decide)⟩

/-- C9: in the per-orphan deletion, any error of the cloud lookup — a
transient one included, not only `NotFound` — is treated as the NEG not
existing: the operation reports success without ever calling delete,
even when the NEG does exist, which silently leaves the orphan in the
cloud. -/
theorem ensureDelete_swallows_transient_get_error (name zone : String)
    (s : CloudState) (hin : (zone, name) ∈ s.negs)
    (hf : (name, zone) ∈ s.getFaults) :
    (ensureDeleteNetworkEndpointGroup name zone s).2 = none ∧
    (zone, name) ∈ (ensureDeleteNetworkEndpointGroup name zone s).1.negs ∧
    (ensureDeleteNetworkEndpointGroup name zone s).1.trace =
      s.trace ++ [CloudOp.getOp name zone] := by
  refine ⟨?_, ?_, ?_⟩ <;>
    simp [ensureDeleteNetworkEndpointGroup, GetNetworkEndpointGroup, hf, hin]

theorem ensureDelete_swallows_transient_get_error_witness :
    ("z", "n") ∈
      ({ negs := [("z", "n")], getFaults := [("n", "z")], deleteFaults := [],
         aggFault := false, trace := [] } : CloudState).negs ∧
    ("n", "z") ∈
      ({ negs := [("z", "n")], getFaults := [("n", "z")], deleteFaults := [],
         aggFault := false, trace := [] } : CloudState).getFaults ∧
    ((ensureDeleteNetworkEndpointGroup "n" "z"
        { negs := [("z", "n")], getFaults := [("n", "z")], deleteFaults := [],
          aggFault := false, trace := [] }).2 = none ∧
     ("z", "n") ∈ (ensureDeleteNetworkEndpointGroup "n" "z"
        { negs := [("z", "n")], getFaults := [("n", "z")], deleteFaults := [],
          aggFault := false, trace := [] }).1.negs ∧
     (ensureDeleteNetworkEndpointGroup "n" "z"
        { negs := [("z", "n")], getFaults := [("n", "z")], deleteFaults := [],
          aggFault := false, trace := [] }).1.trace =
       [] ++ [CloudOp.getOp "n" "z"]) :=
  ⟨by decide, by decide,
    ensureDelete_swallows_transient_get_error "n" "z"
      { negs := [("z", "n")], getFaults := [("n", "z")], deleteFaults := [],
        aggFault := false, trace := [] } (by decide) (by decide)⟩

/-! ## Application-protocol parsing (claim C8) -/

theorem appProtocols_http2_off {m : List (String × String)} {p : String}
    (hmem : (p, "HTTP2") ∈ m)
    (hvalid : ∀ e ∈ m, e.2 = "HTTP" ∨ e.2 = "HTTPS" ∨ e.2 = "HTTP2") :
    ∃ q, ApplicationProtocols false m =
      Except.error (protocolErr.unsupportedProtocol q "HTTP2") := by
  induction m with
  | nil => simp at hmem
  | cons e t ih =>
    obtain ⟨p0, v0⟩ := e
    by_cases hv : v0 = "HTTP2"
    · subst hv
      exact ⟨p0, by simp [ApplicationProtocols, parseProtocol]⟩
    · have hval0 := hvalid (p0, v0) (List.mem_cons_self _ _)
      have hmem' : (p, "HTTP2") ∈ t := by
        rcases List.mem_cons.1 hmem with h | h
        · exact absurd (congrArg Prod.snd h).symm hv
        · exact h
      obtain ⟨q, hq⟩ := ih hmem' (fun e he => hvalid e (List.mem_cons_of_mem _ he))
      refine ⟨q, ?_⟩
      rcases hval0 with h0 | h0 | h0
      · simp only at h0
        subst h0
        simp [ApplicationProtocols, parseProtocol, hq]
      · simp only at h0
        subst h0
        simp [ApplicationProtocols, parseProtocol, hq]
      · exact absurd h0 hv

theorem appProtocols_http2_on {m : List (String × String)}
    (hvalid : ∀ e ∈ m, e.2 = "HTTP" ∨ e.2 = "HTTPS" ∨ e.2 = "HTTP2") :
    ∃ r, ApplicationProtocols true m = Except.ok r ∧
      ∀ p, (p, "HTTP2") ∈ m → (p, AppProtocol.HTTP2) ∈ r := by
  induction m with
  | nil => exact ⟨[], rfl, by simp⟩
  | cons e t ih =>
    obtain ⟨p0, v0⟩ := e
    obtain ⟨r, hr, hrm⟩ := ih (fun e he => hvalid e (List.mem_cons_of_mem _ he))
    have hval0 := hvalid (p0, v0) (List.mem_cons_self _ _)
    rcases hval0 with h0 | h0 | h0 <;> simp only at h0 <;> subst h0
    · refine ⟨(p0, AppProtocol.HTTP) :: r, ?_, ?_⟩
      · simp [ApplicationProtocols, parseProtocol, hr]
      · intro p hp
        rcases List.mem_cons.1 hp with h | h
        · simp at h
        · exact List.mem_cons_of_mem _ (hrm p h)
    · refine ⟨(p0, AppProtocol.HTTPS) :: r, ?_, ?_⟩
      · simp [ApplicationProtocols, parseProtocol, hr]
      · intro p hp
        rcases List.mem_cons.1 hp with h | h
        · simp at h
        · exact List.mem_cons_of_mem _ (hrm p h)
    · refine ⟨(p0, AppProtocol.HTTP2) :: r, ?_, ?_⟩
      · simp [ApplicationProtocols, parseProtocol, hr]
      · intro p hp
        rcases List.mem_cons.1 hp with h | h
        · have hpp : p = p0 := by simpa using congrArg Prod.fst h
          rw [hpp]
          exact List.mem_cons_self _ _
        · exact List.mem_cons_of_mem _ (hrm p h)

/-- C8: for an application-protocol annotation (with otherwise valid
protocol values) mapping some port to `"HTTP2"`, parsing fails with an
`UnsupportedProtocol` error when the HTTP/2 feature flag is off, and
succeeds — returning the map, the HTTP2 entry included — when the flag
is on. -/
theorem appProtocols_http2_needs_flag (m : List (String × String))
    (p : String) (hmem : (p, "HTTP2") ∈ m)
    (hvalid : ∀ e ∈ m, e.2 = "HTTP" ∨ e.2 = "HTTPS" ∨ e.2 = "HTTP2") :
    (∃ q, ApplicationProtocols false m =
      Except.error (protocolErr.unsupportedProtocol q "HTTP2")) ∧
    (∃ r, ApplicationProtocols true m = Except.ok r ∧
      (p, AppProtocol.HTTP2) ∈ r) := by
  refine ⟨appProtocols_http2_off hmem hvalid, ?_⟩
  obtain ⟨r, hr, hrm⟩ := appProtocols_http2_on hvalid
  exact ⟨r, hr, hrm p hmem⟩

theorem appProtocols_http2_needs_flag_witness :
    (("443", "HTTP2") ∈ [("443", "HTTP2"), ("80", "HTTP")]) ∧
    ((∃ q, ApplicationProtocols false [("443", "HTTP2"), ("80", "HTTP")] =
        Except.error (protocolErr.unsupportedProtocol q "HTTP2")) ∧
     (∃ r, ApplicationProtocols true [("443", "HTTP2"), ("80", "HTTP")] =
        Except.ok r ∧ ("443", AppProtocol.HTTP2) ∈ r)) :=
  ⟨by decide,
    appProtocols_http2_needs_flag [("443", "HTTP2"), ("80", "HTTP")] "443"
      (by decide) (by decide)⟩

/-! ## NEG garbage collection (claims C2 and C6) -/

theorem ensureDelete_preserves_config (name zone : String) (s : CloudState) :
    (ensureDeleteNetworkEndpointGroup name zone s).1.getFaults = s.getFaults ∧
    (ensureDeleteNetworkEndpointGroup name zone s).1.deleteFaults =
      s.deleteFaults ∧
    (ensureDeleteNetworkEndpointGroup name zone s).1.aggFault = s.aggFault := by
  by_cases hf : (name, zone) ∈ s.getFaults
  · simp [ensureDeleteNetworkEndpointGroup, GetNetworkEndpointGroup, hf]
  · by_cases hin : (zone, name) ∈ s.negs
    · by_cases hd : (name, zone) ∈ s.deleteFaults <;>
        simp [ensureDeleteNetworkEndpointGroup, GetNetworkEndpointGroup,
          DeleteNetworkEndpointGroup, hf, hin, hd]
    · simp [ensureDeleteNetworkEndpointGroup, GetNetworkEndpointGroup, hf, hin]

theorem ensureDelete_nofault (name zone : String) (s : CloudState)
    (hg : s.getFaults = []) (hd : s.deleteFaults = []) :
    (ensureDeleteNetworkEndpointGroup name zone s).2 = none ∧
    (ensureDeleteNetworkEndpointGroup name zone s).1.negs =
      s.negs.filter (fun e => ¬ e = (zone, name)) := by
  have hf : (name, zone) ∉ s.getFaults := by simp [hg]
  by_cases hin : (zone, name) ∈ s.negs
  · have hdf : (name, zone) ∉ s.deleteFaults := by simp [hd]
    simp [ensureDeleteNetworkEndpointGroup, GetNetworkEndpointGroup,
      DeleteNetworkEndpointGroup, hf, hin, hdf]
  · refine ⟨?_, ?_⟩
    · simp [ensureDeleteNetworkEndpointGroup, GetNetworkEndpointGroup, hf, hin]
    · have hsame : s.negs.filter (fun e => ¬ e = (zone, name)) = s.negs := by
        rw [List.filter_eq_self]
        intro e he
        simp only [decide_not, Bool.not_eq_true', decide_eq_false_iff_not]
        intro hcontra
        exact hin (hcontra ▸ he)
      rw [hsame]
      simp [ensureDeleteNetworkEndpointGroup, GetNetworkEndpointGroup, hf, hin]

theorem deleteNames_nofault (zone : String) (names : List String) :
    ∀ s : CloudState, s.getFaults = [] → s.deleteFaults = [] →
      (deleteNames zone names s).2 = none ∧
      (deleteNames zone names s).1.negs =
        s.negs.filter (fun e => ¬ (e.1 = zone ∧ e.2 ∈ names)) ∧
      (deleteNames zone names s).1.getFaults = [] ∧
      (deleteNames zone names s).1.deleteFaults = [] ∧
      (deleteNames zone names s).1.aggFault = s.aggFault := by
  induction names with
  | nil =>
    intro s hg hd
    refine ⟨rfl, ?_, hg, hd, rfl⟩
    show s.negs = _
    symm
    rw [List.filter_eq_self]
    intro e he
    simp
  | cons n t ih =>
    intro s hg hd
    obtain ⟨herr, hnegs⟩ := ensureDelete_nofault n zone s hg hd
    obtain ⟨hcg, hcd, hca⟩ := ensureDelete_preserves_config n zone s
    have hg1 : (ensureDeleteNetworkEndpointGroup n zone s).1.getFaults = [] :=
      hcg.trans hg
    have hd1 :
        (ensureDeleteNetworkEndpointGroup n zone s).1.deleteFaults = [] :=
      hcd.trans hd
    obtain ⟨ih1, ih2, ih3, ih4, ih5⟩ :=
      ih (ensureDeleteNetworkEndpointGroup n zone s).1 hg1 hd1
    have hstep : deleteNames zone (n :: t) s =
        deleteNames zone t (ensureDeleteNetworkEndpointGroup n zone s).1 := by
      simp only [deleteNames]
      rw [herr]
    rw [hstep]
    refine ⟨ih1, ?_, ih3, ih4, ih5.trans hca⟩
    rw [ih2, hnegs, List.filter_filter]
    apply List.filter_congr
    intro e he
    by_cases hz : e.1 = zone
    · by_cases hn : e.2 = n
      · have : e = (zone, n) := by
          cases e
          simp_all
        simp [this]
      · by_cases ht : e.2 ∈ t <;>
          simp [hz, hn, ht, Prod.ext_iff]
    · have : ¬ e = (zone, n) := by
        intro hcontra
        exact hz (by rw [hcontra])
      simp [hz, this]

theorem deleteOrphans_nofault (names : List String) (zones : List String) :
    ∀ s : CloudState, s.getFaults = [] → s.deleteFaults = [] →
      (deleteOrphans zones names s).2 = none ∧
      (deleteOrphans zones names s).1.negs =
        s.negs.filter (fun e => ¬ (e.1 ∈ zones ∧ e.2 ∈ names)) := by
  induction zones with
  | nil =>
    intro s hg hd
    refine ⟨rfl, ?_⟩
    show s.negs = _
    symm
    rw [List.filter_eq_self]
    intro e he
    simp
  | cons z t ih =>
    intro s hg hd
    obtain ⟨h1, h2, h3, h4, h5⟩ := deleteNames_nofault z names s hg hd
    obtain ⟨ih1, ih2⟩ := ih (deleteNames z names s).1 h3 h4
    have hstep : deleteOrphans (z :: t) names s =
        deleteOrphans t names (deleteNames z names s).1 := by
      simp only [deleteOrphans]
      rw [h1]
    rw [hstep]
    refine ⟨ih1, ?_⟩
    rw [ih2, h2, List.filter_filter]
    apply List.filter_congr
    intro e he
    by_cases hz : e.1 = z
    · by_cases hn : e.2 ∈ names <;> simp [hz, hn]
    · by_cases hzt : e.1 ∈ t <;> by_cases hn : e.2 ∈ names <;>
        simp [hz, hzt, hn]

theorem garbageCollectSyncer_preserves_svcPortMap (key : servicePort)
    (m : syncerManager) :
    (garbageCollectSyncer key m).svcPortMap = m.svcPortMap := by
  unfold garbageCollectSyncer
  split
  · split <;> rfl
  · rfl

theorem gcSyncers_preserves_svcPortMap (keys : List servicePort) :
    ∀ m : syncerManager,
      (keys.foldl (fun mm k => garbageCollectSyncer k mm) m).svcPortMap =
        m.svcPortMap := by
  induction keys with
  | nil => intro m; rfl
  | cons k t ih =>
    intro m
    rw [List.foldl_cons, ih (garbageCollectSyncer k m),
      garbageCollectSyncer_preserves_svcPortMap]

theorem garbageCollectNEG_nofault (nm : negNamer) (m : syncerManager)
    (s : CloudState) (hg : s.getFaults = []) (hd : s.deleteFaults = [])
    (ha : s.aggFault = false) :
    (garbageCollectNEG nm m s).2 = none ∧
    ∀ e ∈ (garbageCollectNEG nm m s).1.negs, nm.IsNEG e.2 = true →
      e.2 ∈ liveNames nm m.svcPortMap := by
  have hagg : AggregatedListNetworkEndpointGroup s =
      some ((zonesOf s.negs).map
        (fun z => (z, (s.negs.filter (fun e => e.1 = z)).map (fun e => e.2)))) := by
    simp [AggregatedListNetworkEndpointGroup, ha]
  have hred : garbageCollectNEG nm m s =
      deleteOrphans
        (((zonesOf s.negs).map
          (fun z => (z, (s.negs.filter (fun e => e.1 = z)).map (fun e => e.2)))).map
            (fun e => e.1))
        ((((((zonesOf s.negs).map
          (fun z => (z, (s.negs.filter (fun e => e.1 = z)).map (fun e => e.2)))).map
            (fun e => e.2)).flatten).filter nm.IsNEG).dedup.filter
          (fun n => ¬ n ∈ liveNames nm m.svcPortMap))
        s := by
    unfold garbageCollectNEG
    rw [hagg]
  obtain ⟨h1, h2⟩ := deleteOrphans_nofault _ _ s hg hd
  rw [hred, h1, h2]
  refine ⟨rfl, ?_⟩
  intro e he hIs
  rw [List.mem_filter] at he
  obtain ⟨hes, hcond⟩ := he
  simp only [decide_not, Bool.not_eq_eq_eq_not, Bool.not_true,
    decide_eq_false_iff_not] at hcond
  have hz0 : e.1 ∈ zonesOf s.negs := by
    unfold zonesOf
    exact List.mem_dedup.2 (List.mem_map_of_mem _ hes)
  have hz : e.1 ∈ ((zonesOf s.negs).map
      (fun z => (z, (s.negs.filter (fun e => e.1 = z)).map (fun e => e.2)))).map
        (fun e => e.1) := by
    rw [List.map_map]
    simpa using hz0
  have hflat : e.2 ∈ (((zonesOf s.negs).map
      (fun z => (z, (s.negs.filter (fun e => e.1 = z)).map (fun e => e.2)))).map
        (fun e => e.2)).flatten := by
    rw [List.map_map]
    refine List.mem_flatten.2
      ⟨(s.negs.filter (fun x => x.1 = e.1)).map (fun x => x.2), ?_, ?_⟩
    · exact List.mem_map_of_mem _ hz0
    · refine List.mem_map_of_mem _ ?_
      exact List.mem_filter.2 ⟨hes, by simp⟩
  have hneg0 : e.2 ∈ ((((zonesOf s.negs).map
      (fun z => (z, (s.negs.filter (fun e => e.1 = z)).map (fun e => e.2)))).map
        (fun e => e.2)).flatten.filter nm.IsNEG).dedup :=
    List.mem_dedup.2 (List.mem_filter.2 ⟨hflat, hIs⟩)
  by_contra hlive
  exact hcond ⟨hz, List.mem_filter.2 ⟨hneg0, by simpa using hlive⟩⟩

/-- C2 (amended): provided no cloud call fails transiently during the
pass, `GC()` completes without error and afterwards every cloud NEG
whose name the namer recognizes belongs to the live set
`{ namer.NEG(ns, svc, p) | (ns, svc) → P ∈ svcPortMap, p ∈ keys(P) }`;
every orphan NEG recognized by the namer has been deleted.  (As stated
the claim is false: a transient error of the per-orphan cloud `Get` is
swallowed, the orphan survives, and GC still reports no error — see the
counterexample.) -/
theorem GC_deletes_all_orphans_nofault (nm : negNamer) (m : syncerManager)
    (s : CloudState) (hg : s.getFaults = []) (hd : s.deleteFaults = [])
    (ha : s.aggFault = false) :
    (GC nm m s).2.2 = none ∧
    ∀ e ∈ (GC nm m s).2.1.negs, nm.IsNEG e.2 = true →
      e.2 ∈ liveNames nm m.svcPortMap := by
  have hm1 : ((getAllStoppedSyncerKeys m).foldl
      (fun mm k => garbageCollectSyncer k mm) m).svcPortMap = m.svcPortMap :=
    gcSyncers_preserves_svcPortMap _ m
  have hpair : (GC nm m s).2 =
      garbageCollectNEG nm
        ((getAllStoppedSyncerKeys m).foldl
          (fun mm k => garbageCollectSyncer k mm) m) s := rfl
  obtain ⟨h1, h2⟩ := garbageCollectNEG_nofault nm
    ((getAllStoppedSyncerKeys m).foldl (fun mm k => garbageCollectSyncer k mm) m)
    s hg hd ha
  rw [hm1] at h2
  rw [hpair]
  exact ⟨h1, h2⟩

theorem GC_deletes_all_orphans_nofault_witness :
    (({ negs := [("z", "n1"), ("z", "n2")], getFaults := [],
        deleteFaults := [], aggFault := false,
        trace := [] } : CloudState).getFaults = []) ∧
    ((GC ⟨fun _ _ _ => "n1", fun _ => true⟩
        { svcPortMap := [({ ns := "ns", name := "svc" }, [((80 : Int), "tp")])],
          syncerMap := [], nextId := 0 }
        { negs := [("z", "n1"), ("z", "n2")], getFaults := [],
          deleteFaults := [], aggFault := false, trace := [] }).2.2 = none ∧
     ∀ e ∈ (GC ⟨fun _ _ _ => "n1", fun _ => true⟩
        { svcPortMap := [({ ns := "ns", name := "svc" }, [((80 : Int), "tp")])],
          syncerMap := [], nextId := 0 }
        { negs := [("z", "n1"), ("z", "n2")], getFaults := [],
          deleteFaults := [], aggFault := false, trace := [] }).2.1.negs,
       (⟨fun _ _ _ => "n1", fun _ => true⟩ : negNamer).IsNEG e.2 = true →
         e.2 ∈ liveNames ⟨fun _ _ _ => "n1", fun _ => true⟩
           ({ svcPortMap := [({ ns := "ns", name := "svc" },
              [((80 : Int), "tp")])], syncerMap := [],
              nextId := 0 } : syncerManager).svcPortMap) :=
  ⟨rfl,
    GC_deletes_all_orphans_nofault ⟨fun _ _ _ => "n1", fun _ => true⟩
      { svcPortMap := [({ ns := "ns", name := "svc" }, [((80 : Int), "tp")])],
        syncerMap := [], nextId := 0 }
      { negs := [("z", "n1"), ("z", "n2")], getFaults := [],
        deleteFaults := [], aggFault := false, trace := [] }
      rfl rfl rfl⟩

/-- C2 as stated is false: with an orphan NEG present and one transient
error of the cloud `Get` for it, `GC()` completes without error, yet a
cloud NEG recognized by the namer remains although the live set is
empty. -/
theorem GC_orphan_survives_counterexample :
    (GC ⟨fun _ _ _ => "live", fun _ => true⟩ newSyncerManager
      { negs := [("z", "orphan")], getFaults := [("orphan", "z")],
        deleteFaults := [], aggFault := false, trace := [] }).2.2 = none ∧
    ("z", "orphan") ∈ (GC ⟨fun _ _ _ => "live", fun _ => true⟩ newSyncerManager
      { negs := [("z", "orphan")], getFaults := [("orphan", "z")],
        deleteFaults := [], aggFault := false, trace := [] }).2.1.negs ∧
    (⟨fun _ _ _ => "live", fun _ => true⟩ : negNamer).IsNEG "orphan" = true ∧
    liveNames ⟨fun _ _ _ => "live", fun _ => true⟩
      newSyncerManager.svcPortMap = [] := by
  refine ⟨?_, ?_, ?_, ?_⟩ <;> decide

theorem ensureDelete_err_trace (name zone : String) (s : CloudState)
    (h : ¬ (ensureDeleteNetworkEndpointGroup name zone s).2 = none) :
    (ensureDeleteNetworkEndpointGroup name zone s).1.trace =
      s.trace ++ [CloudOp.getOp name zone, CloudOp.deleteOp name zone] := by
  by_cases hf : (name, zone) ∈ s.getFaults
  · exact absurd
      (by simp [ensureDeleteNetworkEndpointGroup, GetNetworkEndpointGroup, hf]) h
  · by_cases hin : (zone, name) ∈ s.negs
    · by_cases hdf : (name, zone) ∈ s.deleteFaults <;>
        simp [ensureDeleteNetworkEndpointGroup, GetNetworkEndpointGroup,
          DeleteNetworkEndpointGroup, hf, hin, hdf]
    · exact absurd
        (by simp [ensureDeleteNetworkEndpointGroup, GetNetworkEndpointGroup,
          hf, hin]) h

theorem deleteNames_err (zone : String) (names : List String) :
    ∀ (s : CloudState) (e : gcErr), (deleteNames zone names s).2 = some e →
      ∃ n t, e = gcErr.deleteFailed n zone ∧
        (deleteNames zone names s).1.trace = t ++ [CloudOp.deleteOp n zone] := by
  induction names with
  | nil =>
    intro s e h
    simp [deleteNames] at h
  | cons n rest ih =>
    intro s e h
    cases hr : (ensureDeleteNetworkEndpointGroup n zone s).2 with
    | some ce =>
      have hred : deleteNames zone (n :: rest) s =
          ((ensureDeleteNetworkEndpointGroup n zone s).1,
            some (gcErr.deleteFailed n zone)) := by
        simp only [deleteNames]
        rw [hr]
      rw [hred] at h ⊢
      refine ⟨n, s.trace ++ [CloudOp.getOp n zone], ?_, ?_⟩
      · exact (Option.some_inj.1 h).symm
      · have := ensureDelete_err_trace n zone s (by rw [hr]; exact fun hc => nomatch hc)
        simpa [List.append_assoc] using this
    | none =>
      have hred : deleteNames zone (n :: rest) s =
          deleteNames zone rest (ensureDeleteNetworkEndpointGroup n zone s).1 := by
        simp only [deleteNames]
        rw [hr]
      rw [hred] at h ⊢
      exact ih _ e h

theorem deleteOrphans_err (names : List String) (zones : List String) :
    ∀ (s : CloudState) (e : gcErr), (deleteOrphans zones names s).2 = some e →
      ∃ n z t, e = gcErr.deleteFailed n z ∧
        (deleteOrphans zones names s).1.trace = t ++ [CloudOp.deleteOp n z] := by
  induction zones with
  | nil =>
    intro s e h
    simp [deleteOrphans] at h
  | cons z rest ih =>
    intro s e h
    cases hr : (deleteNames z names s).2 with
    | some ce =>
      have hred : deleteOrphans (z :: rest) names s =
          ((deleteNames z names s).1, some ce) := by
        simp only [deleteOrphans]
        rw [hr]
      rw [hred] at h ⊢
      obtain ⟨n, t, hce, ht⟩ := deleteNames_err z names s ce hr
      exact ⟨n, z, t, (Option.some_inj.1 h).symm.trans hce, ht⟩
    | none =>
      have hred : deleteOrphans (z :: rest) names s =
          deleteOrphans rest names (deleteNames z names s).1 := by
        simp only [deleteOrphans]
        rw [hr]
      rw [hred] at h ⊢
      exact ih _ e h

/-- C6 (amended): GC's orphan-deletion pass stops at the first failed
deletion: when it returns an error (the aggregated listing having
succeeded), the error is the single wrapped error of one failed
deletion, and that failed delete is the last cloud call issued — the
remaining orphan pairs are not attempted in this pass. -/
theorem gc_stops_at_first_delete_failure (nm : negNamer) (m : syncerManager)
    (s : CloudState) (ha : s.aggFault = false) (e : gcErr)
    (h : (garbageCollectNEG nm m s).2 = some e) :
    ∃ n z t, e = gcErr.deleteFailed n z ∧
      (garbageCollectNEG nm m s).1.trace = t ++ [CloudOp.deleteOp n z] := by
  have hagg : AggregatedListNetworkEndpointGroup s =
      some ((zonesOf s.negs).map
        (fun z => (z, (s.negs.filter (fun e => e.1 = z)).map (fun e => e.2)))) := by
    simp [AggregatedListNetworkEndpointGroup, ha]
  have hred : garbageCollectNEG nm m s =
      deleteOrphans
        (((zonesOf s.negs).map
          (fun z => (z, (s.negs.filter (fun e => e.1 = z)).map (fun e => e.2)))).map
            (fun e => e.1))
        ((((((zonesOf s.negs).map
          (fun z => (z, (s.negs.filter (fun e => e.1 = z)).map (fun e => e.2)))).map
            (fun e => e.2)).flatten).filter nm.IsNEG).dedup.filter
          (fun n => ¬ n ∈ liveNames nm m.svcPortMap))
        s := by
    unfold garbageCollectNEG
    rw [hagg]
  rw [hred] at h ⊢
  exact deleteOrphans_err _ _ s e h

theorem gc_stops_at_first_delete_failure_witness :
    (({ negs := [("z", "a"), ("z", "b")], getFaults := [],
        deleteFaults := [("a", "z"), ("b", "z")], aggFault := false,
        trace := [] } : CloudState).aggFault = false) ∧
    ((garbageCollectNEG ⟨fun _ _ _ => "x", fun _ => true⟩ newSyncerManager
        { negs := [("z", "a"), ("z", "b")], getFaults := [],
          deleteFaults := [("a", "z"), ("b", "z")], aggFault := false,
          trace := [] }).2 = some (gcErr.deleteFailed "a" "z")) ∧
    (∃ n z t, gcErr.deleteFailed "a" "z" = gcErr.deleteFailed n z ∧
      (garbageCollectNEG ⟨fun _ _ _ => "x", fun _ => true⟩ newSyncerManager
        { negs := [("z", "a"), ("z", "b")], getFaults := [],
          deleteFaults := [("a", "z"), ("b", "z")], aggFault := false,
          trace := [] }).1.trace = t ++ [CloudOp.deleteOp n z]) :=
  ⟨rfl, by decide,
    gc_stops_at_first_delete_failure ⟨fun _ _ _ => "x", fun _ => true⟩
      newSyncerManager
      { negs := [("z", "a"), ("z", "b")], getFaults := [],
        deleteFaults := [("a", "z"), ("b", "z")], aggFault := false,
        trace := [] } rfl (gcErr.deleteFailed "a" "z") (by decide)⟩

/-- C6 as stated is false: with two orphans whose deletions both fail,
GC returns after the first failure, surfacing only that one error — not
an aggregate of both — and never issues any cloud call for the second
orphan, which remains. -/
theorem gc_aggregates_failures_counterexample :
    (garbageCollectNEG ⟨fun _ _ _ => "x", fun _ => true⟩ newSyncerManager
      { negs := [("z", "a"), ("z", "b")], getFaults := [],
        deleteFaults := [("a", "z"), ("b", "z")], aggFault := false,
        trace := [] }).2 = some (gcErr.deleteFailed "a" "z") ∧
    (garbageCollectNEG ⟨fun _ _ _ => "x", fun _ => true⟩ newSyncerManager
      { negs := [("z", "a"), ("z", "b")], getFaults := [],
        deleteFaults := [("a", "z"), ("b", "z")], aggFault := false,
        trace := [] }).1.trace =
      [CloudOp.getOp "a" "z", CloudOp.deleteOp "a" "z"] ∧
    ("z", "b") ∈ (garbageCollectNEG ⟨fun _ _ _ => "x", fun _ => true⟩
      newSyncerManager
      { negs := [("z", "a"), ("z", "b")], getFaults := [],
        deleteFaults := [("a", "z"), ("b", "z")], aggFault := false,
        trace := [] }).1.negs := by
  refine ⟨?_, ?_, ?_⟩ <;> decide

/-! ## Helper lemmas for the syncer-manager proofs -/

theorem alookup_nil {α β : Type} [DecidableEq α] (k : α) :
    alookup k ([] : List (α × β)) = none := rfl

theorem aupdate_fst_nodup {α β : Type} [DecidableEq α] (k : α) (v : β)
    {l : List (α × β)} (h : (l.map Prod.fst).Nodup) :
    ((aupdate k v l).map Prod.fst).Nodup := by
  unfold aupdate
  rw [List.map_cons]
  refine List.nodup_cons.2 ⟨?_, ?_⟩
  · intro hmem
    obtain ⟨e, he, hek⟩ := List.mem_map.1 hmem
    have := List.of_mem_filter he
    simp only [decide_not, Bool.not_eq_eq_eq_not, Bool.not_true,
      decide_eq_false_iff_not] at this
    exact this hek
  · exact ((List.filter_sublist l).map Prod.fst).nodup h

theorem aerase_fst_nodup {α β : Type} [DecidableEq α] (k : α)
    {l : List (α × β)} (h : (l.map Prod.fst).Nodup) :
    ((aerase k l).map Prod.fst).Nodup :=
  ((List.filter_sublist l).map Prod.fst).nodup h

theorem alookup_eq_of_fst_nodup_mem {α β : Type} [DecidableEq α]
    {l : List (α × β)} {k : α} {v : β} (hnd : (l.map Prod.fst).Nodup)
    (hmem : (k, v) ∈ l) : alookup k l = some v := by
  induction l with
  | nil => simp at hmem
  | cons e t ih =>
    rw [List.map_cons, List.nodup_cons] at hnd
    rcases List.mem_cons.1 hmem with he | ht
    · rw [← he]
      simp [alookup]
    · have hek : ¬ e.1 = k := by
        intro hcontra
        exact hnd.1 (hcontra ▸ List.mem_map_of_mem Prod.fst ht)
      simp only [alookup, hek, if_neg, not_false_iff]
      exact ih hnd.2 ht

theorem getSyncerKey_inj {ns name : String} {p p' : Int} {t t' : String} :
    getSyncerKey ns name p t = getSyncerKey ns name p' t' ↔ p = p' ∧ t = t' := by
  simp [getSyncerKey, servicePort.mk.injEq]

theorem negSyncer.Stop_stopped (s : negSyncer) : s.Stop.stopped = true := by
  unfold negSyncer.Stop
  by_cases h : s.stopped
  · simp [h]
  · simp [h]

theorem negSyncer.Stop_id (s : negSyncer) : s.Stop.id = s.id := by
  unfold negSyncer.Stop
  by_cases h : s.stopped
  · simp [h]
  · simp [h]

theorem negSyncer.Stop_idem (s : negSyncer) : s.Stop.Stop = s.Stop := by
  unfold negSyncer.Stop
  by_cases h : s.stopped
  · simp [h]
  · simp [h]

theorem option_map_Stop_idem (o : Option negSyncer) :
    (o.map negSyncer.Stop).map negSyncer.Stop = o.map negSyncer.Stop := by
  cases o with
  | none => rfl
  | some s => simp [negSyncer.Stop_idem]

theorem negSyncer.Sync_stopped (s : negSyncer) :
    s.Sync.stopped = s.stopped := rfl

theorem negSyncer.Sync_id (s : negSyncer) : s.Sync.id = s.id := rfl

theorem alookup_map_value {α β : Type} [DecidableEq α] (f : β → β) (k : α)
    (l : List (α × β)) :
    alookup k (l.map (fun e => (e.1, f e.2))) = (alookup k l).map f := by
  induction l with
  | nil => rfl
  | cons e t ih =>
    by_cases he : e.1 = k
    · simp [alookup, he]
    · simpa [alookup, he] using ih

/-! ## The removes loop of `EnsureSyncers` -/

theorem stopOne_some {ns name : String} {mp : List (servicePort × negSyncer)}
    {e : Int × String} {sy : negSyncer}
    (hl : alookup (getSyncerKey ns name e.1 e.2) mp = some sy) :
    stopOne ns name mp e = aupdate (getSyncerKey ns name e.1 e.2) sy.Stop mp := by
  unfold stopOne
  rw [hl]

theorem stopOne_none {ns name : String} {mp : List (servicePort × negSyncer)}
    {e : Int × String}
    (hl : alookup (getSyncerKey ns name e.1 e.2) mp = none) :
    stopOne ns name mp e = mp := by
  unfold stopOne
  rw [hl]

theorem stopRemoves_cons (ns name : String) (e : Int × String)
    (t : PortNameMap) (mp : List (servicePort × negSyncer)) :
    stopRemoves ns name (e :: t) mp =
      stopRemoves ns name t (stopOne ns name mp e) := rfl

theorem stopOne_lookup_ne {ns name : String}
    {mp : List (servicePort × negSyncer)} {e : Int × String}
    {k : servicePort} (hk : ¬ k = getSyncerKey ns name e.1 e.2) :
    alookup k (stopOne ns name mp e) = alookup k mp := by
  cases hl : alookup (getSyncerKey ns name e.1 e.2) mp with
  | some sy =>
    rw [stopOne_some hl]
    exact alookup_aupdate_ne _ _ hk
  | none =>
    rw [stopOne_none hl]

theorem stopRemoves_frame (ns name : String) (removes : PortNameMap) :
    ∀ (mp : List (servicePort × negSyncer)) (k : servicePort),
      (∀ e ∈ removes, ¬ k = getSyncerKey ns name e.1 e.2) →
      alookup k (stopRemoves ns name removes mp) = alookup k mp := by
  induction removes with
  | nil => intro mp k h; rfl
  | cons e t ih =>
    intro mp k h
    rw [stopRemoves_cons,
      ih _ k (fun e' he' => h e' (List.mem_cons_of_mem _ he'))]
    exact stopOne_lookup_ne (h e (List.mem_cons_self _ _))

theorem stopRemoves_mem (ns name : String) (removes : PortNameMap) :
    ∀ (mp : List (servicePort × negSyncer)) (p : Int) (t : String),
      (removes.map Prod.fst).Nodup → (p, t) ∈ removes →
      alookup (getSyncerKey ns name p t) (stopRemoves ns name removes mp) =
        (alookup (getSyncerKey ns name p t) mp).map negSyncer.Stop := by
  induction removes with
  | nil => intro mp p t hnd hmem; simp at hmem
  | cons e rest ih =>
    intro mp p t hnd hmem
    rw [List.map_cons, List.nodup_cons] at hnd
    rw [stopRemoves_cons]
    rcases List.mem_cons.1 hmem with he | hrest
    · have hkey : ∀ e' ∈ rest,
          ¬ getSyncerKey ns name p t = getSyncerKey ns name e'.1 e'.2 := by
        intro e' he' hcontra
        obtain ⟨hp, ht⟩ := getSyncerKey_inj.1 hcontra
        apply hnd.1
        have hp0 : e.1 = e'.1 := by rw [← he]; exact hp
        exact hp0 ▸ List.mem_map_of_mem Prod.fst he'
      rw [stopRemoves_frame ns name rest _ _ hkey]
      cases hl : alookup (getSyncerKey ns name p t) mp with
      | some sy =>
        have hl' : alookup (getSyncerKey ns name e.1 e.2) mp = some sy := by
          rw [← he]; exact hl
        rw [stopOne_some hl']
        have hkk : getSyncerKey ns name p t = getSyncerKey ns name e.1 e.2 := by
          rw [← he]
        rw [hkk, alookup_aupdate_self]
        rfl
      | none =>
        have hl' : alookup (getSyncerKey ns name e.1 e.2) mp = none := by
          rw [← he]; exact hl
        rw [stopOne_none hl', hl]
        rfl
    · have hep : ¬ e.1 = p := by
        intro hcontra
        exact hnd.1 (hcontra ▸ List.mem_map_of_mem Prod.fst hrest)
      have hkne : ¬ getSyncerKey ns name p t = getSyncerKey ns name e.1 e.2 := by
        intro hcontra
        exact hep (getSyncerKey_inj.1 hcontra).1.symm
      rw [ih _ p t hnd.2 hrest, stopOne_lookup_ne hkne]

theorem stopRemoves_shape (ns name : String) (removes : PortNameMap) :
    ∀ (mp : List (servicePort × negSyncer)) (k : servicePort),
      alookup k (stopRemoves ns name removes mp) = alookup k mp ∨
      alookup k (stopRemoves ns name removes mp) =
        (alookup k mp).map negSyncer.Stop := by
  induction removes with
  | nil => intro mp k; exact Or.inl rfl
  | cons e rest ih =>
    intro mp k
    rw [stopRemoves_cons]
    have hstep : alookup k (stopOne ns name mp e) = alookup k mp ∨
        alookup k (stopOne ns name mp e) =
          (alookup k mp).map negSyncer.Stop := by
      by_cases hk : k = getSyncerKey ns name e.1 e.2
      · cases hl : alookup (getSyncerKey ns name e.1 e.2) mp with
        | some sy =>
          right
          rw [stopOne_some hl, hk, alookup_aupdate_self, hl]
          rfl
        | none =>
          left
          rw [stopOne_none hl]
      · exact Or.inl (stopOne_lookup_ne hk)
    rcases ih (stopOne ns name mp e) k with h1 | h1 <;> rcases hstep with h2 | h2
    · exact Or.inl (h1.trans h2)
    · exact Or.inr (h1.trans h2)
    · exact Or.inr (by rw [h1, h2])
    · refine Or.inr ?_
      rw [h1, h2, option_map_Stop_idem]

theorem stopOne_fst_nodup {ns name : String}
    {mp : List (servicePort × negSyncer)} (e : Int × String)
    (h : (mp.map Prod.fst).Nodup) :
    ((stopOne ns name mp e).map Prod.fst).Nodup := by
  cases hl : alookup (getSyncerKey ns name e.1 e.2) mp with
  | some sy =>
    rw [stopOne_some hl]
    exact aupdate_fst_nodup _ _ h
  | none =>
    rw [stopOne_none hl]
    exact h

theorem stopRemoves_fst_nodup (ns name : String) (removes : PortNameMap) :
    ∀ mp : List (servicePort × negSyncer), (mp.map Prod.fst).Nodup →
      ((stopRemoves ns name removes mp).map Prod.fst).Nodup := by
  induction removes with
  | nil => intro mp h; exact h
  | cons e rest ih =>
    intro mp h
    rw [stopRemoves_cons]
    exact ih _ (stopOne_fst_nodup e h)

/-! ## The adds loop of `EnsureSyncers` -/

theorem addOne_absent {ns name : String} {mp : List (servicePort × negSyncer)}
    {nid : Nat} {errs : List startErr} {e : Int × String}
    (hl : alookup (getSyncerKey ns name e.1 e.2) mp = none) :
    addOne ns name (mp, nid, errs) e =
      (aupdate (getSyncerKey ns name e.1 e.2)
        { id := nid, stopped := false, shuttingDown := false, pokes := 0 }
        (aupdate (getSyncerKey ns name e.1 e.2) (newSyncer nid) mp),
       nid + 1, errs) := by
  simp [addOne, hl, newSyncer, negSyncer.IsStopped, negSyncer.Start]

theorem addOne_running {ns name : String} {mp : List (servicePort × negSyncer)}
    {nid : Nat} {errs : List startErr} {e : Int × String} {sy : negSyncer}
    (hl : alookup (getSyncerKey ns name e.1 e.2) mp = some sy)
    (hs : sy.stopped = false) :
    addOne ns name (mp, nid, errs) e = (mp, nid, errs) := by
  simp [addOne, hl, negSyncer.IsStopped, hs]

theorem addOne_restart {ns name : String} {mp : List (servicePort × negSyncer)}
    {nid : Nat} {errs : List startErr} {e : Int × String} {sy : negSyncer}
    (hl : alookup (getSyncerKey ns name e.1 e.2) mp = some sy)
    (hs : sy.stopped = true) (hsd : sy.shuttingDown = false) :
    addOne ns name (mp, nid, errs) e =
      (aupdate (getSyncerKey ns name e.1 e.2) { sy with stopped := false } mp,
       nid, errs) := by
  simp [addOne, hl, negSyncer.IsStopped, hs, negSyncer.Start, hsd]

theorem addOne_shuttingDown {ns name : String}
    {mp : List (servicePort × negSyncer)} {nid : Nat} {errs : List startErr}
    {e : Int × String} {sy : negSyncer}
    (hl : alookup (getSyncerKey ns name e.1 e.2) mp = some sy)
    (hs : sy.stopped = true) (hsd : sy.shuttingDown = true) :
    addOne ns name (mp, nid, errs) e =
      (aupdate (getSyncerKey ns name e.1 e.2) sy mp, nid,
        errs ++ [startErr.stillShuttingDown]) := by
  simp [addOne, hl, negSyncer.IsStopped, hs, negSyncer.Start, hsd]

theorem addOne_lookup_ne (ns name : String)
    (mp : List (servicePort × negSyncer)) (nid : Nat) (errs : List startErr)
    {e : Int × String} {k : servicePort}
    (hk : ¬ k = getSyncerKey ns name e.1 e.2) :
    alookup k (addOne ns name (mp, nid, errs) e).1 = alookup k mp := by
  cases hl : alookup (getSyncerKey ns name e.1 e.2) mp with
  | some sy =>
    by_cases hs : sy.stopped = true
    · by_cases hsd : sy.shuttingDown = true
      · rw [addOne_shuttingDown hl hs hsd]
        exact alookup_aupdate_ne _ _ hk
      · rw [addOne_restart hl hs (Bool.not_eq_true _ ▸ hsd)]
        exact alookup_aupdate_ne _ _ hk
    · rw [addOne_running hl (Bool.not_eq_true _ ▸ hs)]
  | none =>
    rw [addOne_absent hl]
    rw [alookup_aupdate_ne _ _ hk, alookup_aupdate_ne _ _ hk]

theorem addOne_nid_mono (ns name : String)
    (mp : List (servicePort × negSyncer)) (nid : Nat) (errs : List startErr)
    (e : Int × String) : nid ≤ (addOne ns name (mp, nid, errs) e).2.1 := by
  cases hl : alookup (getSyncerKey ns name e.1 e.2) mp with
  | some sy =>
    by_cases hs : sy.stopped = true
    · by_cases hsd : sy.shuttingDown = true
      · rw [addOne_shuttingDown hl hs hsd]
      · rw [addOne_restart hl hs (Bool.not_eq_true _ ▸ hsd)]
    · rw [addOne_running hl (Bool.not_eq_true _ ▸ hs)]
  | none =>
    rw [addOne_absent hl]
    exact Nat.le_succ nid

theorem addOne_fst_nodup (ns name : String)
    (mp : List (servicePort × negSyncer)) (nid : Nat) (errs : List startErr)
    (e : Int × String) (h : (mp.map Prod.fst).Nodup) :
    (((addOne ns name (mp, nid, errs) e).1).map Prod.fst).Nodup := by
  cases hl : alookup (getSyncerKey ns name e.1 e.2) mp with
  | some sy =>
    by_cases hs : sy.stopped = true
    · by_cases hsd : sy.shuttingDown = true
      · rw [addOne_shuttingDown hl hs hsd]
        exact aupdate_fst_nodup _ _ h
      · rw [addOne_restart hl hs (Bool.not_eq_true _ ▸ hsd)]
        exact aupdate_fst_nodup _ _ h
    · rw [addOne_running hl (Bool.not_eq_true _ ▸ hs)]
      exact h
  | none =>
    rw [addOne_absent hl]
    exact aupdate_fst_nodup _ _ (aupdate_fst_nodup _ _ h)

theorem startFails_congr {ns name : String}
    {mp1 mp : List (servicePort × negSyncer)} {rest : PortNameMap}
    (h : ∀ e ∈ rest, alookup (getSyncerKey ns name e.1 e.2) mp1 =
      alookup (getSyncerKey ns name e.1 e.2) mp) :
    rest.filter (startFails ns name mp1) =
      rest.filter (startFails ns name mp) := by
  apply List.filter_congr
  intro e he
  unfold startFails
  rw [h e he]

theorem startAddsFold_nid_mono (ns name : String) (adds : PortNameMap) :
    ∀ (mp : List (servicePort × negSyncer)) (nid : Nat) (errs : List startErr),
      nid ≤ (adds.foldl (addOne ns name) (mp, nid, errs)).2.1 := by
  induction adds with
  | nil => intro mp nid errs; exact le_refl nid
  | cons e rest ih =>
    intro mp nid errs
    have h1 := addOne_nid_mono ns name mp nid errs e
    rcases hA : addOne ns name (mp, nid, errs) e with ⟨mp1, nid1, errs1⟩
    rw [hA] at h1
    rw [List.foldl_cons, hA]
    exact le_trans h1 (ih mp1 nid1 errs1)

theorem startAddsFold_frame (ns name : String) (adds : PortNameMap) :
    ∀ (mp : List (servicePort × negSyncer)) (nid : Nat) (errs : List startErr)
      (k : servicePort),
      (∀ e ∈ adds, ¬ k = getSyncerKey ns name e.1 e.2) →
      alookup k ((adds.foldl (addOne ns name) (mp, nid, errs)).1) =
        alookup k mp := by
  induction adds with
  | nil => intro mp nid errs k h; rfl
  | cons e rest ih =>
    intro mp nid errs k h
    have h1 := addOne_lookup_ne ns name mp nid errs
      (h e (List.mem_cons_self _ _))
    rcases hA : addOne ns name (mp, nid, errs) e with ⟨mp1, nid1, errs1⟩
    rw [hA] at h1
    rw [List.foldl_cons, hA,
      ih mp1 nid1 errs1 k (fun e' he' => h e' (List.mem_cons_of_mem _ he'))]
    exact h1

theorem startAddsFold_fst_nodup (ns name : String) (adds : PortNameMap) :
    ∀ (mp : List (servicePort × negSyncer)) (nid : Nat) (errs : List startErr),
      (mp.map Prod.fst).Nodup →
      (((adds.foldl (addOne ns name) (mp, nid, errs)).1).map Prod.fst).Nodup := by
  induction adds with
  | nil => intro mp nid errs h; exact h
  | cons e rest ih =>
    intro mp nid errs h
    have h1 := addOne_fst_nodup ns name mp nid errs e h
    rcases hA : addOne ns name (mp, nid, errs) e with ⟨mp1, nid1, errs1⟩
    rw [hA] at h1
    rw [List.foldl_cons, hA]
    exact ih mp1 nid1 errs1 h1

theorem startAddsFold_shape (ns name : String) (adds : PortNameMap) :
    ∀ (mp : List (servicePort × negSyncer)) (nid : Nat) (errs : List startErr)
      (k : servicePort),
      alookup k ((adds.foldl (addOne ns name) (mp, nid, errs)).1) =
        alookup k mp ∨
      ∃ e ∈ adds, k = getSyncerKey ns name e.1 e.2 := by
  induction adds with
  | nil => intro mp nid errs k; exact Or.inl rfl
  | cons e rest ih =>
    intro mp nid errs k
    by_cases hk : k = getSyncerKey ns name e.1 e.2
    · exact Or.inr ⟨e, List.mem_cons_self _ _, hk⟩
    · have h1 := addOne_lookup_ne ns name mp nid errs hk
      rcases hA : addOne ns name (mp, nid, errs) e with ⟨mp1, nid1, errs1⟩
      rw [hA] at h1
      rw [List.foldl_cons, hA]
      rcases ih mp1 nid1 errs1 k with h2 | h2
      · exact Or.inl (h2.trans h1)
      · exact Or.inr (by
          obtain ⟨e', he', hke⟩ := h2
          exact ⟨e', List.mem_cons_of_mem _ he', hke⟩)

theorem keysDistinctOfNodup {ns name : String} {e : Int × String}
    {rest : PortNameMap} (hnotin : e.1 ∉ rest.map Prod.fst) :
    ∀ e' ∈ rest, alookup (getSyncerKey ns name e'.1 e'.2)
        (aupdate (getSyncerKey ns name e.1 e.2) v mp) =
      alookup (getSyncerKey ns name e'.1 e'.2) mp := by
  intro e' he'
  apply alookup_aupdate_ne
  intro hc
  obtain ⟨hp, ht⟩ := getSyncerKey_inj.1 hc
  exact hnotin (hp ▸ List.mem_map_of_mem Prod.fst he')

theorem startAddsFold_errs (ns name : String) (adds : PortNameMap) :
    ∀ (mp : List (servicePort × negSyncer)) (nid : Nat) (errs : List startErr),
      (adds.map Prod.fst).Nodup →
      (adds.foldl (addOne ns name) (mp, nid, errs)).2.2 =
        errs ++ (adds.filter (startFails ns name mp)).map
          (fun _ => startErr.stillShuttingDown) := by
  induction adds with
  | nil => intro mp nid errs h; simp
  | cons e rest ih =>
    intro mp nid errs hnd
    rw [List.map_cons, List.nodup_cons] at hnd
    rw [List.foldl_cons]
    cases hl : alookup (getSyncerKey ns name e.1 e.2) mp with
    | some sy =>
      by_cases hs : sy.stopped = true
      · by_cases hsd : sy.shuttingDown = true
        · rw [addOne_shuttingDown hl hs hsd,
            ih _ _ _ hnd.2,
            startFails_congr (keysDistinctOfNodup hnd.1)]
          have hfail : startFails ns name mp e = true := by
            unfold startFails
            rw [hl]
            simp [hs, hsd]
          rw [List.filter_cons_of_pos (by rw [hfail]), List.map_cons,
            List.append_assoc]
          rfl
        · have hsd' : sy.shuttingDown = false := Bool.not_eq_true _ ▸ hsd
          rw [addOne_restart hl hs hsd',
            ih _ _ _ hnd.2,
            startFails_congr (keysDistinctOfNodup hnd.1)]
          have hfail : startFails ns name mp e = false := by
            unfold startFails
            rw [hl]
            simp [hsd']
          rw [List.filter_cons_of_neg (by rw [hfail]; exact Bool.false_ne_true)]
      · have hs' : sy.stopped = false := Bool.not_eq_true _ ▸ hs
        rw [addOne_running hl hs', ih _ _ _ hnd.2]
        have hfail : startFails ns name mp e = false := by
          unfold startFails
          rw [hl]
          simp [hs']
        rw [List.filter_cons_of_neg (by rw [hfail]; exact Bool.false_ne_true)]
    | none =>
      rw [addOne_absent hl]
      have hcong : ∀ e' ∈ rest, alookup (getSyncerKey ns name e'.1 e'.2)
          (aupdate (getSyncerKey ns name e.1 e.2)
            { id := nid, stopped := false, shuttingDown := false, pokes := 0 }
            (aupdate (getSyncerKey ns name e.1 e.2) (newSyncer nid) mp)) =
          alookup (getSyncerKey ns name e'.1 e'.2) mp := by
        intro e' he'
        rw [keysDistinctOfNodup hnd.1 e' he', keysDistinctOfNodup hnd.1 e' he']
      rw [ih _ _ _ hnd.2, startFails_congr hcong]
      have hfail : startFails ns name mp e = false := by
        unfold startFails
        rw [hl]
      rw [List.filter_cons_of_neg (by rw [hfail]; exact Bool.false_ne_true)]

theorem memKeyNe {p : Int} (t : String) {e : Int × String} (hep : ¬ e.1 = p)
    (ns name : String) :
    ¬ getSyncerKey ns name p t = getSyncerKey ns name e.1 e.2 := by
  intro hc
  exact hep (getSyncerKey_inj.1 hc).1.symm

theorem restKeysNe {ns name : String} {p : Int} {t : String}
    {e : Int × String} {rest : PortNameMap} (he : (p, t) = e)
    (hnotin : e.1 ∉ rest.map Prod.fst) :
    ∀ e' ∈ rest, ¬ getSyncerKey ns name p t = getSyncerKey ns name e'.1 e'.2 := by
  intro e' he' hc
  obtain ⟨hp, ht⟩ := getSyncerKey_inj.1 hc
  apply hnotin
  have hp0 : e.1 = e'.1 := by rw [← he]; exact hp
  exact hp0 ▸ List.mem_map_of_mem Prod.fst he'

theorem startAddsFold_mem_absent (ns name : String) (adds : PortNameMap) :
    ∀ (mp : List (servicePort × negSyncer)) (nid : Nat) (errs : List startErr)
      (p : Int) (t : String),
      (adds.map Prod.fst).Nodup → (p, t) ∈ adds →
      alookup (getSyncerKey ns name p t) mp = none →
      ∃ i, nid ≤ i ∧ i < (adds.foldl (addOne ns name) (mp, nid, errs)).2.1 ∧
        alookup (getSyncerKey ns name p t)
          ((adds.foldl (addOne ns name) (mp, nid, errs)).1) =
          some { id := i, stopped := false, shuttingDown := false,
                 pokes := 0 } := by
  induction adds with
  | nil => intro mp nid errs p t hnd hmem hl; simp at hmem
  | cons e rest ih =>
    intro mp nid errs p t hnd hmem hl
    rw [List.map_cons, List.nodup_cons] at hnd
    rw [List.foldl_cons]
    rcases List.mem_cons.1 hmem with he | hrest
    · have hk : getSyncerKey ns name p t = getSyncerKey ns name e.1 e.2 := by
        rw [← he]
      have hl' : alookup (getSyncerKey ns name e.1 e.2) mp = none := by
        rw [← hk]; exact hl
      rw [addOne_absent hl']
      refine ⟨nid, le_refl nid, ?_, ?_⟩
      · have := startAddsFold_nid_mono ns name rest
          (aupdate (getSyncerKey ns name e.1 e.2)
            { id := nid, stopped := false, shuttingDown := false, pokes := 0 }
            (aupdate (getSyncerKey ns name e.1 e.2) (newSyncer nid) mp))
          (nid + 1) errs
        omega
      · rw [startAddsFold_frame ns name rest _ _ _ _ (restKeysNe he hnd.1), hk,
          alookup_aupdate_self]
    · have hep : ¬ e.1 = p := by
        intro hcontra
        exact hnd.1 (hcontra ▸ List.mem_map_of_mem Prod.fst hrest)
      have h1 := addOne_lookup_ne ns name mp nid errs
        (memKeyNe t hep ns name)
      have h2 := addOne_nid_mono ns name mp nid errs e
      rcases hA : addOne ns name (mp, nid, errs) e with ⟨mp1, nid1, errs1⟩
      rw [hA] at h1 h2
      obtain ⟨i, hi1, hi2, hi3⟩ := ih mp1 nid1 errs1 p t hnd.2 hrest
        (h1.trans hl)
      exact ⟨i, le_trans h2 hi1, hi2, hi3⟩

theorem startAddsFold_mem_running (ns name : String) (adds : PortNameMap) :
    ∀ (mp : List (servicePort × negSyncer)) (nid : Nat) (errs : List startErr)
      (p : Int) (t : String) (sy : negSyncer),
      (adds.map Prod.fst).Nodup → (p, t) ∈ adds →
      alookup (getSyncerKey ns name p t) mp = some sy → sy.stopped = false →
      alookup (getSyncerKey ns name p t)
        ((adds.foldl (addOne ns name) (mp, nid, errs)).1) = some sy := by
  induction adds with
  | nil => intro mp nid errs p t sy hnd hmem hl hs; simp at hmem
  | cons e rest ih =>
    intro mp nid errs p t sy hnd hmem hl hs
    rw [List.map_cons, List.nodup_cons] at hnd
    rw [List.foldl_cons]
    rcases List.mem_cons.1 hmem with he | hrest
    · have hk : getSyncerKey ns name p t = getSyncerKey ns name e.1 e.2 := by
        rw [← he]
      have hl' : alookup (getSyncerKey ns name e.1 e.2) mp = some sy := by
        rw [← hk]; exact hl
      rw [addOne_running hl' hs,
        startAddsFold_frame ns name rest _ _ _ _ (restKeysNe he hnd.1)]
      exact hl
    · have hep : ¬ e.1 = p := by
        intro hcontra
        exact hnd.1 (hcontra ▸ List.mem_map_of_mem Prod.fst hrest)
      have h1 := addOne_lookup_ne ns name mp nid errs
        (memKeyNe t hep ns name)
      rcases hA : addOne ns name (mp, nid, errs) e with ⟨mp1, nid1, errs1⟩
      rw [hA] at h1
      exact ih mp1 nid1 errs1 p t sy hnd.2 hrest (h1.trans hl) hs

theorem startAddsFold_mem_restart (ns name : String) (adds : PortNameMap) :
    ∀ (mp : List (servicePort × negSyncer)) (nid : Nat) (errs : List startErr)
      (p : Int) (t : String) (sy : negSyncer),
      (adds.map Prod.fst).Nodup → (p, t) ∈ adds →
      alookup (getSyncerKey ns name p t) mp = some sy → sy.stopped = true →
      sy.shuttingDown = false →
      alookup (getSyncerKey ns name p t)
        ((adds.foldl (addOne ns name) (mp, nid, errs)).1) =
        some { sy with stopped := false } := by
  induction adds with
  | nil => intro mp nid errs p t sy hnd hmem hl hs hsd; simp at hmem
  | cons e rest ih =>
    intro mp nid errs p t sy hnd hmem hl hs hsd
    rw [List.map_cons, List.nodup_cons] at hnd
    rw [List.foldl_cons]
    rcases List.mem_cons.1 hmem with he | hrest
    · have hk : getSyncerKey ns name p t = getSyncerKey ns name e.1 e.2 := by
        rw [← he]
      have hl' : alookup (getSyncerKey ns name e.1 e.2) mp = some sy := by
        rw [← hk]; exact hl
      rw [addOne_restart hl' hs hsd,
        startAddsFold_frame ns name rest _ _ _ _ (restKeysNe he hnd.1), hk,
        alookup_aupdate_self]
    · have hep : ¬ e.1 = p := by
        intro hcontra
        exact hnd.1 (hcontra ▸ List.mem_map_of_mem Prod.fst hrest)
      have h1 := addOne_lookup_ne ns name mp nid errs
        (memKeyNe t hep ns name)
      rcases hA : addOne ns name (mp, nid, errs) e with ⟨mp1, nid1, errs1⟩
      rw [hA] at h1
      exact ih mp1 nid1 errs1 p t sy hnd.2 hrest (h1.trans hl) hs hsd

theorem startAddsFold_mem_shuttingDown (ns name : String) (adds : PortNameMap) :
    ∀ (mp : List (servicePort × negSyncer)) (nid : Nat) (errs : List startErr)
      (p : Int) (t : String) (sy : negSyncer),
      (adds.map Prod.fst).Nodup → (p, t) ∈ adds →
      alookup (getSyncerKey ns name p t) mp = some sy → sy.stopped = true →
      sy.shuttingDown = true →
      alookup (getSyncerKey ns name p t)
        ((adds.foldl (addOne ns name) (mp, nid, errs)).1) = some sy := by
  induction adds with
  | nil => intro mp nid errs p t sy hnd hmem hl hs hsd; simp at hmem
  | cons e rest ih =>
    intro mp nid errs p t sy hnd hmem hl hs hsd
    rw [List.map_cons, List.nodup_cons] at hnd
    rw [List.foldl_cons]
    rcases List.mem_cons.1 hmem with he | hrest
    · have hk : getSyncerKey ns name p t = getSyncerKey ns name e.1 e.2 := by
        rw [← he]
      have hl' : alookup (getSyncerKey ns name e.1 e.2) mp = some sy := by
        rw [← hk]; exact hl
      rw [addOne_shuttingDown hl' hs hsd,
        startAddsFold_frame ns name rest _ _ _ _ (restKeysNe he hnd.1), hk,
        alookup_aupdate_self]
    · have hep : ¬ e.1 = p := by
        intro hcontra
        exact hnd.1 (hcontra ▸ List.mem_map_of_mem Prod.fst hrest)
      have h1 := addOne_lookup_ne ns name mp nid errs
        (memKeyNe t hep ns name)
      rcases hA : addOne ns name (mp, nid, errs) e with ⟨mp1, nid1, errs1⟩
      rw [hA] at h1
      exact ih mp1 nid1 errs1 p t sy hnd.2 hrest (h1.trans hl) hs hsd

/-! ## `EnsureSyncers` (claims C7, C1, C3) -/

theorem mem_Difference {p1 p2 : PortNameMap} {e : Int × String}
    (h : e ∈ p1.Difference p2) : e ∈ p1 ∧ ¬ alookup e.1 p2 = some e.2 := by
  unfold PortNameMap.Difference at h
  refine ⟨List.mem_of_mem_filter h, ?_⟩
  have := List.of_mem_filter h
  simpa using this

theorem Difference_mem {p1 p2 : PortNameMap} {e : Int × String} (h1 : e ∈ p1)
    (h2 : ¬ alookup e.1 p2 = some e.2) : e ∈ p1.Difference p2 := by
  unfold PortNameMap.Difference
  exact List.mem_filter.2 ⟨h1, by simpa using h2⟩

theorem Difference_fst_nodup (p1 p2 : PortNameMap)
    (h : (p1.map Prod.fst).Nodup) :
    ((p1.Difference p2).map Prod.fst).Nodup :=
  ((List.filter_sublist p1).map Prod.fst).nodup h

/-- The keys of the removes entries differ from the keys of the adds
entries: an add's `(port, targetPort)` is an entry of `newPorts`, which
the removes condition excludes. -/
theorem adds_removes_key_ne {ns name : String} {newPorts current : PortNameMap}
    (hnp : (newPorts.map Prod.fst).Nodup) {e : Int × String}
    (he : e ∈ newPorts.Difference current) :
    ∀ e' ∈ current.Difference newPorts,
      ¬ getSyncerKey ns name e.1 e.2 = getSyncerKey ns name e'.1 e'.2 := by
  intro e' he' hc
  obtain ⟨hp, ht⟩ := getSyncerKey_inj.1 hc
  obtain ⟨hmem, _⟩ := mem_Difference he
  obtain ⟨_, hcond⟩ := mem_Difference he'
  apply hcond
  rw [← hp, ← ht]
  exact alookup_eq_of_fst_nodup_mem hnp hmem

theorem EnsureSyncers_snd (ns name : String) (newPorts : PortNameMap)
    (m : syncerManager) :
    (EnsureSyncers ns name newPorts m).2 =
      NewAggregate
        ((newPorts.Difference
            ((alookup (getServiceKey ns name) m.svcPortMap).getD [])).foldl
          (addOne ns name)
          (stopRemoves ns name
            (((alookup (getServiceKey ns name) m.svcPortMap).getD
              []).Difference newPorts) m.syncerMap, m.nextId, [])).2.2 := rfl

/-- C7: the adds loop of `EnsureSyncers` collects every `Start()` error
and the call returns the single composite error aggregating exactly
those per-syncer start errors — one per added `(port, targetPort)`
whose registered syncer is stopped but still shutting down — and no
error when every start succeeds. -/
theorem ensureSyncers_aggregates_start_errors (ns name : String)
    (newPorts : PortNameMap) (m : syncerManager)
    (hnp : (newPorts.map Prod.fst).Nodup) :
    (EnsureSyncers ns name newPorts m).2 =
      NewAggregate
        (((newPorts.Difference
            ((alookup (getServiceKey ns name) m.svcPortMap).getD [])).filter
              (startFails ns name m.syncerMap)).map
          (fun _ => startErr.stillShuttingDown)) := by
  rw [EnsureSyncers_snd]
  rw [startAddsFold_errs ns name _ _ _ _
    (Difference_fst_nodup _ _ hnp)]
  rw [List.nil_append]
  congr 1
  congr 1
  apply startFails_congr
  intro e he
  apply stopRemoves_frame
  intro e' he'
  exact adds_removes_key_ne hnp he e' he'

theorem ensureSyncers_aggregates_start_errors_witness :
    ((([((80 : Int), "t")] : PortNameMap).map Prod.fst).Nodup) ∧
    (EnsureSyncers "n" "s" [((80 : Int), "t")] newSyncerManager).2 =
      NewAggregate
        (((PortNameMap.Difference [((80 : Int), "t")]
            ((alookup (getServiceKey "n" "s")
              newSyncerManager.svcPortMap).getD [])).filter
              (startFails "n" "s" newSyncerManager.syncerMap)).map
          (fun _ => startErr.stillShuttingDown)) :=
  ⟨by decide,
    ensureSyncers_aggregates_start_errors "n" "s" [((80 : Int), "t")]
      newSyncerManager (by decide)⟩

/-! ## Invariant preservation -/

theorem stopRemoves_lookup_inv (ns name : String) (removes : PortNameMap)
    (mp : List (servicePort × negSyncer)) (k : servicePort) (sy : negSyncer)
    (h : alookup k (stopRemoves ns name removes mp) = some sy) :
    ∃ sy0, alookup k mp = some sy0 ∧ (sy = sy0 ∨ sy = sy0.Stop) := by
  rcases stopRemoves_shape ns name removes mp k with hs | hs
  · exact ⟨sy, hs.symm.trans h, Or.inl rfl⟩
  · rw [hs] at h
    cases hl : alookup k mp with
    | none => rw [hl] at h; cases h
    | some sy0 =>
      rw [hl] at h
      exact ⟨sy0, rfl, Or.inr (Option.some_inj.1 h).symm⟩

theorem mem_pair_self {adds : PortNameMap} {e : Int × String} (he : e ∈ adds) :
    (e.1, e.2) ∈ adds := by
  rw [Prod.mk.eta]
  exact he

theorem serviceKey_eq_fields {k : servicePort} {ns name : String}
    (h : getServiceKey k.ns k.name = getServiceKey ns name) :
    k.ns = ns ∧ k.name = name := by
  simpa [getServiceKey, serviceKey.mk.injEq] using h

theorem EnsureSyncers_fst (ns name : String) (newPorts : PortNameMap)
    (m : syncerManager) :
    (EnsureSyncers ns name newPorts m).1 =
      { svcPortMap := aupdate (getServiceKey ns name) newPorts m.svcPortMap,
        syncerMap :=
          ((newPorts.Difference
              ((alookup (getServiceKey ns name) m.svcPortMap).getD [])).foldl
            (addOne ns name)
            (stopRemoves ns name
              (((alookup (getServiceKey ns name) m.svcPortMap).getD
                []).Difference newPorts) m.syncerMap, m.nextId, [])).1,
        nextId :=
          ((newPorts.Difference
              ((alookup (getServiceKey ns name) m.svcPortMap).getD [])).foldl
            (addOne ns name)
            (stopRemoves ns name
              (((alookup (getServiceKey ns name) m.svcPortMap).getD
                []).Difference newPorts) m.syncerMap, m.nextId, [])).2.1 } := rfl

theorem managerInv_ensure (ns name : String) (newPorts : PortNameMap)
    (m : syncerManager) (hnp : (newPorts.map Prod.fst).Nodup)
    (hInv : managerInv m) : managerInv (EnsureSyncers ns name newPorts m).1 := by
  obtain ⟨hA, hB, hC, hD⟩ := hInv
  have hcpnodup : ((((alookup (getServiceKey ns name) m.svcPortMap).getD []) :
      PortNameMap).map Prod.fst).Nodup := by
    cases hl : alookup (getServiceKey ns name) m.svcPortMap with
    | some pm => exact hB _ pm hl
    | none => simp
  have hremnodup := Difference_fst_nodup
    ((alookup (getServiceKey ns name) m.svcPortMap).getD []) newPorts hcpnodup
  have haddsnodup := Difference_fst_nodup newPorts
    ((alookup (getServiceKey ns name) m.svcPortMap).getD []) hnp
  rw [EnsureSyncers_fst]
  refine ⟨?_, ?_, ?_, ?_⟩
  · intro k sy hlk hrun
    simp only at hlk ⊢
    rcases startAddsFold_shape ns name
      (newPorts.Difference ((alookup (getServiceKey ns name) m.svcPortMap).getD []))
      (stopRemoves ns name
        (((alookup (getServiceKey ns name) m.svcPortMap).getD
          []).Difference newPorts) m.syncerMap) m.nextId [] k with hsh | hsh
    · rw [hsh] at hlk
      obtain ⟨sy0, hl0, hcase⟩ := stopRemoves_lookup_inv _ _ _ _ _ _ hlk
      rcases hcase with hcase | hcase
      · obtain ⟨pm, hpm, hport⟩ := hA k sy (hcase ▸ hl0) hrun
        by_cases hks : getServiceKey k.ns k.name = getServiceKey ns name
        · obtain ⟨hn1, hn2⟩ := serviceKey_eq_fields hks
          have hpmcp : ((alookup (getServiceKey ns name) m.svcPortMap).getD
              [] : PortNameMap) = pm := by
            rw [← hks, hpm]
            rfl
          refine ⟨newPorts, by rw [hks, alookup_aupdate_self], ?_⟩
          by_cases hnew : alookup k.port newPorts = some k.targetPort
          · exact hnew
          · exfalso
            have hmemrem : (k.port, k.targetPort) ∈
                (((alookup (getServiceKey ns name) m.svcPortMap).getD
                  []) : PortNameMap).Difference newPorts :=
              Difference_mem (hpmcp ▸ alookup_mem hport) hnew
            have hkk : getSyncerKey ns name k.port k.targetPort = k := by
              cases k
              simp only at hn1 hn2 ⊢
              simp [getSyncerKey, hn1, hn2]
            have hstop := stopRemoves_mem ns name _ m.syncerMap k.port
              k.targetPort hremnodup hmemrem
            rw [hkk] at hstop
            rw [hstop, hl0] at hlk
            have hsy : sy = sy0.Stop := by
              simpa using hlk.symm
            have : sy.stopped = true := by
              rw [hsy]
              exact negSyncer.Stop_stopped sy0
            rw [hrun] at this
            cases this
        · obtain ⟨pm, hpm, hport⟩ := hA k sy (hcase ▸ hl0) hrun
          exact ⟨pm, by rw [alookup_aupdate_ne _ _ hks]; exact hpm, hport⟩
      · exfalso
        have : sy.stopped = true := by
          rw [hcase]
          exact negSyncer.Stop_stopped sy0
        rw [hrun] at this
        cases this
    · obtain ⟨e, he, hkey⟩ := hsh
      refine ⟨newPorts, ?_, ?_⟩
      · rw [hkey]
        exact alookup_aupdate_self _ _ _
      · rw [hkey]
        exact alookup_eq_of_fst_nodup_mem hnp (mem_Difference he).1
  · intro sk pm hpm
    simp only at hpm
    by_cases hks : sk = getServiceKey ns name
    · rw [hks, alookup_aupdate_self] at hpm
      rw [← Option.some_inj.1 hpm]
      exact hnp
    · rw [alookup_aupdate_ne _ _ hks] at hpm
      exact hB sk pm hpm
  · intro k sy hlk
    simp only at hlk ⊢
    have hmono := startAddsFold_nid_mono ns name
      (newPorts.Difference ((alookup (getServiceKey ns name) m.svcPortMap).getD []))
      (stopRemoves ns name
        (((alookup (getServiceKey ns name) m.svcPortMap).getD
          []).Difference newPorts) m.syncerMap) m.nextId []
    rcases startAddsFold_shape ns name
      (newPorts.Difference ((alookup (getServiceKey ns name) m.svcPortMap).getD []))
      (stopRemoves ns name
        (((alookup (getServiceKey ns name) m.svcPortMap).getD
          []).Difference newPorts) m.syncerMap) m.nextId [] k with hsh | hsh
    · rw [hsh] at hlk
      obtain ⟨sy0, hl0, hcase⟩ := stopRemoves_lookup_inv _ _ _ _ _ _ hlk
      have hid : sy.id = sy0.id := by
        rcases hcase with hcase | hcase
        · rw [hcase]
        · rw [hcase]
          exact negSyncer.Stop_id sy0
      rw [hid]
      exact lt_of_lt_of_le (hC k sy0 hl0) hmono
    · obtain ⟨e, he, hkey⟩ := hsh
      rw [hkey] at hlk
      cases hsl : alookup (getSyncerKey ns name e.1 e.2)
          (stopRemoves ns name
            (((alookup (getServiceKey ns name) m.svcPortMap).getD
              []).Difference newPorts) m.syncerMap) with
      | none =>
        obtain ⟨i, hi1, hi2, hi3⟩ := startAddsFold_mem_absent ns name _ _
          m.nextId [] e.1 e.2 haddsnodup (mem_pair_self he) hsl
        rw [hi3] at hlk
        rw [Option.some_inj.1 hlk.symm]
        exact hi2
      | some sy0 =>
        obtain ⟨sy1, hl1, hcase1⟩ := stopRemoves_lookup_inv _ _ _ _ _ _ hsl
        have hid0 : sy0.id < m.nextId := by
          have : sy0.id = sy1.id := by
            rcases hcase1 with hcase1 | hcase1
            · rw [hcase1]
            · rw [hcase1]; exact negSyncer.Stop_id sy1
          rw [this]
          exact hC _ sy1 hl1
        have hidfin : sy.id = sy0.id := by
          by_cases hs : sy0.stopped = true
          · by_cases hsd : sy0.shuttingDown = true
            · have := startAddsFold_mem_shuttingDown ns name _ _ m.nextId []
                e.1 e.2 sy0 haddsnodup (mem_pair_self he) hsl hs hsd
              rw [this] at hlk
              rw [Option.some_inj.1 hlk.symm]
            · have := startAddsFold_mem_restart ns name _ _ m.nextId []
                e.1 e.2 sy0 haddsnodup (mem_pair_self he) hsl hs
                (Bool.not_eq_true _ ▸ hsd)
              rw [this] at hlk
              rw [Option.some_inj.1 hlk.symm]
          · have := startAddsFold_mem_running ns name _ _ m.nextId []
              e.1 e.2 sy0 haddsnodup (mem_pair_self he) hsl
              (Bool.not_eq_true _ ▸ hs)
            rw [this] at hlk
            rw [Option.some_inj.1 hlk.symm]
        rw [hidfin]
        exact lt_of_lt_of_le hid0 hmono
  · simp only
    exact startAddsFold_fst_nodup ns name _ _ m.nextId []
      (stopRemoves_fst_nodup ns name _ m.syncerMap hD)

theorem managerInv_stop (ns name : String) (m : syncerManager)
    (hInv : managerInv m) : managerInv (StopSyncer ns name m) := by
  obtain ⟨hA, hB, hC, hD⟩ := hInv
  unfold StopSyncer
  cases hl : alookup (getServiceKey ns name) m.svcPortMap with
  | none => exact ⟨hA, hB, hC, hD⟩
  | some ports =>
    refine ⟨?_, ?_, ?_, ?_⟩
    · intro k sy hlk hrun
      simp only at hlk ⊢
      obtain ⟨sy0, hl0, hcase⟩ := stopRemoves_lookup_inv _ _ _ _ _ _ hlk
      have hstopped : sy = sy0.Stop → False := by
        intro hsy
        have : sy.stopped = true := by
          rw [hsy]
          exact negSyncer.Stop_stopped sy0
        rw [hrun] at this
        cases this
      rcases hcase with hcase | hcase
      · obtain ⟨pm, hpm, hport⟩ := hA k sy (hcase ▸ hl0) hrun
        by_cases hks : getServiceKey k.ns k.name = getServiceKey ns name
        · exfalso
          have hpm2 : pm = ports := by
            rw [hks, hl] at hpm
            exact (Option.some_inj.1 hpm).symm
          obtain ⟨hn1, hn2⟩ := serviceKey_eq_fields hks
          have hkk : getSyncerKey ns name k.port k.targetPort = k := by
            cases k
            simp only at hn1 hn2 ⊢
            simp [getSyncerKey, hn1, hn2]
          have hmem : (k.port, k.targetPort) ∈ ports :=
            hpm2 ▸ alookup_mem hport
          have hstop := stopRemoves_mem ns name ports m.syncerMap k.port
            k.targetPort (hB _ ports hl) hmem
          rw [hkk] at hstop
          rw [hstop, hl0] at hlk
          exact hstopped (by simpa using hlk.symm)
        · exact ⟨pm, by rw [alookup_aerase_ne _ hks]; exact hpm, hport⟩
      · exact absurd hcase hstopped
    · intro sk pm hpm
      simp only at hpm
      by_cases hks : sk = getServiceKey ns name
      · rw [hks, alookup_aerase_self] at hpm
        cases hpm
      · rw [alookup_aerase_ne _ hks] at hpm
        exact hB sk pm hpm
    · intro k sy hlk
      simp only at hlk ⊢
      obtain ⟨sy0, hl0, hcase⟩ := stopRemoves_lookup_inv _ _ _ _ _ _ hlk
      have hid : sy.id = sy0.id := by
        rcases hcase with hcase | hcase
        · rw [hcase]
        · rw [hcase]
          exact negSyncer.Stop_id sy0
      rw [hid]
      exact hC k sy0 hl0
    · exact stopRemoves_fst_nodup ns name ports m.syncerMap hD

theorem syncOne_some {ns name : String} {mp : List (servicePort × negSyncer)}
    {e : Int × String} {sy1 : negSyncer}
    (hl : alookup (getSyncerKey ns name e.1 e.2) mp = some sy1) :
    syncOne ns name mp e =
      if ¬ sy1.IsStopped then
        aupdate (getSyncerKey ns name e.1 e.2) sy1.Sync mp
      else mp := by
  unfold syncOne
  rw [hl]

theorem syncOne_none {ns name : String} {mp : List (servicePort × negSyncer)}
    {e : Int × String}
    (hl : alookup (getSyncerKey ns name e.1 e.2) mp = none) :
    syncOne ns name mp e = mp := by
  unfold syncOne
  rw [hl]

theorem syncOne_lookup_inv (ns name : String)
    (mp : List (servicePort × negSyncer)) (e : Int × String) (k : servicePort)
    (sy : negSyncer) (h : alookup k (syncOne ns name mp e) = some sy) :
    ∃ sy0, alookup k mp = some sy0 ∧ sy.stopped = sy0.stopped ∧
      sy.shuttingDown = sy0.shuttingDown ∧ sy.id = sy0.id := by
  cases hl : alookup (getSyncerKey ns name e.1 e.2) mp with
  | none =>
    rw [syncOne_none hl] at h
    exact ⟨sy, h, rfl, rfl, rfl⟩
  | some sy1 =>
    rw [syncOne_some hl] at h
    by_cases hs : sy1.IsStopped = true
    · rw [if_neg (not_not_intro hs)] at h
      exact ⟨sy, h, rfl, rfl, rfl⟩
    · rw [if_pos hs] at h
      by_cases hk : k = getSyncerKey ns name e.1 e.2
      · rw [hk, alookup_aupdate_self] at h
        refine ⟨sy1, by rw [hk]; exact hl, ?_, ?_, ?_⟩ <;>
          rw [(Option.some_inj.1 h).symm] <;> rfl
      · rw [alookup_aupdate_ne _ _ hk] at h
        exact ⟨sy, h, rfl, rfl, rfl⟩

theorem syncOne_fst_nodup (ns name : String)
    {mp : List (servicePort × negSyncer)} (e : Int × String)
    (h : (mp.map Prod.fst).Nodup) :
    ((syncOne ns name mp e).map Prod.fst).Nodup := by
  cases hl : alookup (getSyncerKey ns name e.1 e.2) mp with
  | none =>
    rw [syncOne_none hl]
    exact h
  | some sy1 =>
    rw [syncOne_some hl]
    by_cases hs : sy1.IsStopped = true
    · rw [if_neg (not_not_intro hs)]
      exact h
    · rw [if_pos hs]
      exact aupdate_fst_nodup _ _ h

theorem syncFold_lookup_inv (ns name : String) (ports : PortNameMap) :
    ∀ (mp : List (servicePort × negSyncer)) (k : servicePort) (sy : negSyncer),
      alookup k (ports.foldl (syncOne ns name) mp) = some sy →
      ∃ sy0, alookup k mp = some sy0 ∧ sy.stopped = sy0.stopped ∧
        sy.shuttingDown = sy0.shuttingDown ∧ sy.id = sy0.id := by
  induction ports with
  | nil => intro mp k sy h; exact ⟨sy, h, rfl, rfl, rfl⟩
  | cons e rest ih =>
    intro mp k sy h
    rw [List.foldl_cons] at h
    obtain ⟨sy1, hl1, hp1, hp2, hp3⟩ := ih _ k sy h
    obtain ⟨sy0, hl0, hq1, hq2, hq3⟩ := syncOne_lookup_inv ns name mp e k sy1 hl1
    exact ⟨sy0, hl0, hp1.trans hq1, hp2.trans hq2, hp3.trans hq3⟩

theorem syncFold_fst_nodup (ns name : String) (ports : PortNameMap) :
    ∀ mp : List (servicePort × negSyncer), (mp.map Prod.fst).Nodup →
      ((ports.foldl (syncOne ns name) mp).map Prod.fst).Nodup := by
  induction ports with
  | nil => intro mp h; exact h
  | cons e rest ih =>
    intro mp h
    rw [List.foldl_cons]
    exact ih _ (syncOne_fst_nodup ns name e h)

theorem managerInv_sync (ns name : String) (m : syncerManager)
    (hInv : managerInv m) : managerInv (Sync ns name m) := by
  obtain ⟨hA, hB, hC, hD⟩ := hInv
  unfold Sync
  cases hl : alookup (getServiceKey ns name) m.svcPortMap with
  | none => exact ⟨hA, hB, hC, hD⟩
  | some ports =>
    refine ⟨?_, ?_, ?_, ?_⟩
    · intro k sy hlk hrun
      simp only at hlk ⊢
      obtain ⟨sy0, hl0, hq1, hq2, hq3⟩ :=
        syncFold_lookup_inv ns name ports m.syncerMap k sy hlk
      exact hA k sy0 hl0 (hq1 ▸ hrun)
    · intro sk pm hpm
      simp only at hpm
      exact hB sk pm hpm
    · intro k sy hlk
      simp only at hlk ⊢
      obtain ⟨sy0, hl0, hq1, hq2, hq3⟩ :=
        syncFold_lookup_inv ns name ports m.syncerMap k sy hlk
      rw [hq3]
      exact hC k sy0 hl0
    · exact syncFold_fst_nodup ns name ports m.syncerMap hD

theorem map_value_fst {α β : Type} (f : β → β) (l : List (α × β)) :
    ((l.map (fun e => (e.1, f e.2))).map Prod.fst) = l.map Prod.fst := by
  rw [List.map_map]
  rfl

theorem managerInv_shutdown (m : syncerManager) (hInv : managerInv m) :
    managerInv (ShutDown m) := by
  obtain ⟨hA, hB, hC, hD⟩ := hInv
  refine ⟨?_, hB, ?_, ?_⟩
  · intro k sy hlk hrun
    simp only [ShutDown] at hlk ⊢
    rw [alookup_map_value] at hlk
    cases hl : alookup k m.syncerMap with
    | none => rw [hl] at hlk; cases hlk
    | some sy0 =>
      rw [hl] at hlk
      exfalso
      have hsy : sy = sy0.Stop := by simpa using hlk.symm
      have : sy.stopped = true := by
        rw [hsy]
        exact negSyncer.Stop_stopped sy0
      rw [hrun] at this
      cases this
  · intro k sy hlk
    simp only [ShutDown] at hlk ⊢
    rw [alookup_map_value] at hlk
    cases hl : alookup k m.syncerMap with
    | none => rw [hl] at hlk; cases hlk
    | some sy0 =>
      rw [hl] at hlk
      have hsy : sy = sy0.Stop := by simpa using hlk.symm
      rw [hsy, negSyncer.Stop_id]
      exact hC k sy0 hl
  · simp only [ShutDown]
    rw [map_value_fst]
    exact hD

theorem garbageCollectSyncer_some {key : servicePort} {m : syncerManager}
    {sy : negSyncer} (hl : alookup key m.syncerMap = some sy) :
    garbageCollectSyncer key m =
      if sy.IsStopped ∧ ¬ sy.IsShuttingDown then
        { m with syncerMap := aerase key m.syncerMap }
      else m := by
  unfold garbageCollectSyncer
  rw [hl]

theorem garbageCollectSyncer_none {key : servicePort} {m : syncerManager}
    (hl : alookup key m.syncerMap = none) :
    garbageCollectSyncer key m = m := by
  unfold garbageCollectSyncer
  rw [hl]

theorem managerInv_gcSyncer (key : servicePort) (m : syncerManager)
    (hInv : managerInv m) : managerInv (garbageCollectSyncer key m) := by
  obtain ⟨hA, hB, hC, hD⟩ := hInv
  cases hl : alookup key m.syncerMap with
  | none =>
    rw [garbageCollectSyncer_none hl]
    exact ⟨hA, hB, hC, hD⟩
  | some sy =>
    rw [garbageCollectSyncer_some hl]
    by_cases hc : sy.IsStopped ∧ ¬ sy.IsShuttingDown
    · rw [if_pos hc]
      refine ⟨?_, hB, ?_, ?_⟩
      · intro k sy1 hlk hrun
        simp only at hlk ⊢
        have hm : alookup k m.syncerMap = some sy1 := by
          by_cases hk : k = key
          · rw [hk, alookup_aerase_self] at hlk
            cases hlk
          · rw [alookup_aerase_ne _ hk] at hlk
            exact hlk
        exact hA k sy1 hm hrun
      · intro k sy1 hlk
        simp only at hlk ⊢
        have hm : alookup k m.syncerMap = some sy1 := by
          by_cases hk : k = key
          · rw [hk, alookup_aerase_self] at hlk
            cases hlk
          · rw [alookup_aerase_ne _ hk] at hlk
            exact hlk
        exact hC k sy1 hm
      · exact aerase_fst_nodup _ hD
    · rw [if_neg hc]
      exact ⟨hA, hB, hC, hD⟩

theorem managerInv_gcSyncers (keys : List servicePort) :
    ∀ m : syncerManager, managerInv m →
      managerInv (keys.foldl (fun mm k => garbageCollectSyncer k mm) m) := by
  induction keys with
  | nil => intro m h; exact h
  | cons k rest ih =>
    intro m h
    rw [List.foldl_cons]
    exact ih _ (managerInv_gcSyncer k m h)

theorem finishShutdownAt_some {key : servicePort} {m : syncerManager}
    {sy : negSyncer} (hl : alookup key m.syncerMap = some sy) :
    finishShutdownAt key m =
      if sy.stopped ∧ sy.shuttingDown then
        { m with syncerMap := aupdate key sy.finishShutdown m.syncerMap }
      else m := by
  unfold finishShutdownAt
  rw [hl]

theorem finishShutdownAt_none {key : servicePort} {m : syncerManager}
    (hl : alookup key m.syncerMap = none) :
    finishShutdownAt key m = m := by
  unfold finishShutdownAt
  rw [hl]

theorem managerInv_finish (key : servicePort) (m : syncerManager)
    (hInv : managerInv m) : managerInv (finishShutdownAt key m) := by
  obtain ⟨hA, hB, hC, hD⟩ := hInv
  cases hl : alookup key m.syncerMap with
  | none =>
    rw [finishShutdownAt_none hl]
    exact ⟨hA, hB, hC, hD⟩
  | some sy =>
    rw [finishShutdownAt_some hl]
    by_cases hc : sy.stopped = true ∧ sy.shuttingDown = true
    · rw [if_pos hc]
      refine ⟨?_, hB, ?_, ?_⟩
      · intro k sy1 hlk hrun
        simp only at hlk ⊢
        by_cases hk : k = key
        · rw [hk, alookup_aupdate_self] at hlk
          exfalso
          have hsy : sy1 = sy.finishShutdown := (Option.some_inj.1 hlk).symm
          have : sy1.stopped = true := by
            rw [hsy]
            exact hc.1
          rw [hrun] at this
          cases this
        · rw [alookup_aupdate_ne _ _ hk] at hlk
          exact hA k sy1 hlk hrun
      · intro k sy1 hlk
        simp only at hlk ⊢
        by_cases hk : k = key
        · rw [hk, alookup_aupdate_self] at hlk
          have hsy : sy1 = sy.finishShutdown := (Option.some_inj.1 hlk).symm
          rw [hsy]
          exact hC key sy hl
        · rw [alookup_aupdate_ne _ _ hk] at hlk
          exact hC k sy1 hlk
      · exact aupdate_fst_nodup _ _ hD
    · rw [if_neg hc]
      exact ⟨hA, hB, hC, hD⟩

theorem managerInv_init : managerInv newSyncerManager := by
  refine ⟨?_, ?_, ?_, ?_⟩
  · intro k sy hlk
    simp [newSyncerManager, alookup] at hlk
  · intro sk pm hpm
    simp [newSyncerManager, alookup] at hpm
  · intro k sy hlk
    simp [newSyncerManager, alookup] at hlk
  · simp [newSyncerManager]

/-- Every reachable manager state satisfies the invariant. -/
theorem reachable_inv {m : syncerManager} (h : Reachable m) : managerInv m := by
  induction h with
  | init => exact managerInv_init
  | ensure ns name newPorts m hnp _ ih =>
    exact managerInv_ensure ns name newPorts m hnp ih
  | stop ns name m _ ih => exact managerInv_stop ns name m ih
  | sync ns name m _ ih => exact managerInv_sync ns name m ih
  | shutdown m _ ih => exact managerInv_shutdown m ih
  | gcSyncers m _ ih => exact managerInv_gcSyncers _ m ih
  | finish key m _ ih => exact managerInv_finish key m ih

theorem NewAggregate_eq_none {l : List startErr} :
    NewAggregate l = none ↔ l = [] := by
  unfold NewAggregate
  cases l with
  | nil => simp
  | cons a t => simp

/-- When `EnsureSyncers` returns no error, no add entry's registered
syncer was stopped-and-shutting-down against the post-removes registry. -/
theorem ensureSyncers_none_no_startFails (ns name : String)
    (newPorts : PortNameMap) (m : syncerManager)
    (hnp : (newPorts.map Prod.fst).Nodup)
    (herr : (EnsureSyncers ns name newPorts m).2 = none) :
    ∀ e ∈ (newPorts.Difference
        ((alookup (getServiceKey ns name) m.svcPortMap).getD [])),
      ¬ startFails ns name
        (stopRemoves ns name
          (((alookup (getServiceKey ns name) m.svcPortMap).getD
            []).Difference newPorts) m.syncerMap) e = true := by
  rw [EnsureSyncers_snd] at herr
  rw [startAddsFold_errs ns name _ _ _ _ (Difference_fst_nodup _ _ hnp),
    List.nil_append, NewAggregate_eq_none, List.map_eq_nil_iff,
    List.filter_eq_nil_iff] at herr
  exact herr

/-- C1 (amended): assume `EnsureSyncers(namespace, name, P)` returns no
error and that every `(port, targetPort)` entry shared between the old
stored port map and `P` already had a Running syncer.  Then afterwards
the stored port map for the service is `P`; the registry (whose keys
stay unique, so per key there is exactly one syncer) holds a Running
syncer for every entry of `P` and no Running syncer for any key of the
service outside `P`; and the registry entry of every shared
`(port, targetPort)` is left untouched.  (As stated — without those two
assumptions — the claim is false, see the counterexample: a key re-added
while its old syncer still shuts down is left non-running.) -/
theorem ensureSyncers_registry_matches_ports (ns name : String)
    (newPorts : PortNameMap) (m : syncerManager)
    (hre : Reachable m) (hnp : (newPorts.map Prod.fst).Nodup)
    (herr : (EnsureSyncers ns name newPorts m).2 = none)
    (hshared : ∀ p t,
      alookup p (((alookup (getServiceKey ns name) m.svcPortMap).getD []) :
        PortNameMap) = some t →
      alookup p newPorts = some t →
      ∃ sy, alookup (getSyncerKey ns name p t) m.syncerMap = some sy ∧
        sy.stopped = false) :
    alookup (getServiceKey ns name)
      (EnsureSyncers ns name newPorts m).1.svcPortMap = some newPorts ∧
    (∀ p t, (p, t) ∈ newPorts →
      ∃ sy, alookup (getSyncerKey ns name p t)
        (EnsureSyncers ns name newPorts m).1.syncerMap = some sy ∧
        sy.stopped = false) ∧
    (∀ k sy, k.ns = ns → k.name = name →
      alookup k (EnsureSyncers ns name newPorts m).1.syncerMap = some sy →
      sy.stopped = false →
      alookup k.port newPorts = some k.targetPort) ∧
    (∀ p t,
      alookup p (((alookup (getServiceKey ns name) m.svcPortMap).getD []) :
        PortNameMap) = some t →
      alookup p newPorts = some t →
      alookup (getSyncerKey ns name p t)
        (EnsureSyncers ns name newPorts m).1.syncerMap =
        alookup (getSyncerKey ns name p t) m.syncerMap) ∧
    ((EnsureSyncers ns name newPorts m).1.syncerMap.map Prod.fst).Nodup := by
  obtain ⟨hA, hB, hC, hD⟩ := reachable_inv hre
  have hcpnodup : ((((alookup (getServiceKey ns name) m.svcPortMap).getD []) :
      PortNameMap).map Prod.fst).Nodup := by
    cases hl : alookup (getServiceKey ns name) m.svcPortMap with
    | some pm => exact hB _ pm hl
    | none => simp
  have hremnodup := Difference_fst_nodup
    ((alookup (getServiceKey ns name) m.svcPortMap).getD []) newPorts hcpnodup
  have haddsnodup := Difference_fst_nodup newPorts
    ((alookup (getServiceKey ns name) m.svcPortMap).getD []) hnp
  have hfail := ensureSyncers_none_no_startFails ns name newPorts m hnp herr
  have huntouched : ∀ p t,
      alookup p (((alookup (getServiceKey ns name) m.svcPortMap).getD []) :
        PortNameMap) = some t →
      alookup p newPorts = some t →
      alookup (getSyncerKey ns name p t)
        (EnsureSyncers ns name newPorts m).1.syncerMap =
        alookup (getSyncerKey ns name p t) m.syncerMap := by
    intro p t hcp hnew
    rw [EnsureSyncers_fst]
    simp only
    have hnotadds : ∀ e ∈ (newPorts.Difference
        ((alookup (getServiceKey ns name) m.svcPortMap).getD [])),
        ¬ getSyncerKey ns name p t = getSyncerKey ns name e.1 e.2 := by
      intro e he hc
      obtain ⟨hp, ht⟩ := getSyncerKey_inj.1 hc
      exact (mem_Difference he).2 (by rw [← hp, ← ht]; exact hcp)
    have hnotrem : ∀ e ∈ ((((alookup (getServiceKey ns name)
        m.svcPortMap).getD []) : PortNameMap).Difference newPorts),
        ¬ getSyncerKey ns name p t = getSyncerKey ns name e.1 e.2 := by
      intro e he hc
      obtain ⟨hp, ht⟩ := getSyncerKey_inj.1 hc
      exact (mem_Difference he).2 (by rw [← hp, ← ht]; exact hnew)
    rw [startAddsFold_frame ns name _ _ _ _ _ hnotadds,
      stopRemoves_frame ns name _ _ _ hnotrem]
  refine ⟨?_, ?_, ?_, huntouched, ?_⟩
  · rw [EnsureSyncers_fst]
    simp only
    exact alookup_aupdate_self _ _ _
  · intro p t hmem
    by_cases hcp : alookup p (((alookup (getServiceKey ns name)
        m.svcPortMap).getD []) : PortNameMap) = some t
    · have hnew : alookup p newPorts = some t :=
        alookup_eq_of_fst_nodup_mem hnp hmem
      obtain ⟨sy, hl, hrun⟩ := hshared p t hcp hnew
      exact ⟨sy, by rw [huntouched p t hcp hnew]; exact hl, hrun⟩
    · have hadd : (p, t) ∈ newPorts.Difference
          ((alookup (getServiceKey ns name) m.svcPortMap).getD []) :=
        Difference_mem hmem hcp
      rw [EnsureSyncers_fst]
      simp only
      cases hsl : alookup (getSyncerKey ns name p t)
          (stopRemoves ns name
            (((alookup (getServiceKey ns name) m.svcPortMap).getD
              []).Difference newPorts) m.syncerMap) with
      | none =>
        obtain ⟨i, hi1, hi2, hi3⟩ := startAddsFold_mem_absent ns name _ _
          m.nextId [] p t haddsnodup hadd hsl
        exact ⟨_, hi3, rfl⟩
      | some sy0 =>
        by_cases hs : sy0.stopped = true
        · by_cases hsd : sy0.shuttingDown = true
          · exfalso
            apply hfail (p, t) hadd
            unfold startFails
            rw [hsl]
            simp [hs, hsd]
          · have := startAddsFold_mem_restart ns name _ _ m.nextId []
              p t sy0 haddsnodup hadd hsl hs (Bool.not_eq_true _ ▸ hsd)
            exact ⟨_, this, rfl⟩
        · have := startAddsFold_mem_running ns name _ _ m.nextId []
            p t sy0 haddsnodup hadd hsl (Bool.not_eq_true _ ▸ hs)
          exact ⟨sy0, this, Bool.not_eq_true _ ▸ hs⟩
  · intro k sy hkns hkname hlk hrun
    rw [EnsureSyncers_fst] at hlk
    simp only at hlk
    rcases startAddsFold_shape ns name
      (newPorts.Difference ((alookup (getServiceKey ns name) m.svcPortMap).getD []))
      (stopRemoves ns name
        (((alookup (getServiceKey ns name) m.svcPortMap).getD
          []).Difference newPorts) m.syncerMap) m.nextId [] k with hsh | hsh
    · rw [hsh] at hlk
      obtain ⟨sy0, hl0, hcase⟩ := stopRemoves_lookup_inv _ _ _ _ _ _ hlk
      have hstopped : sy = sy0.Stop → False := by
        intro hsy
        have : sy.stopped = true := by
          rw [hsy]
          exact negSyncer.Stop_stopped sy0
        rw [hrun] at this
        cases this
      rcases hcase with hcase | hcase
      · obtain ⟨pm, hpm, hport⟩ := hA k sy (hcase ▸ hl0) hrun
        have hks : getServiceKey k.ns k.name = getServiceKey ns name := by
          rw [hkns, hkname]
        have hpmcp : ((alookup (getServiceKey ns name) m.svcPortMap).getD
            [] : PortNameMap) = pm := by
          rw [← hks, hpm]
          rfl
        by_cases hnew : alookup k.port newPorts = some k.targetPort
        · exact hnew
        · exfalso
          have hmemrem : (k.port, k.targetPort) ∈
              (((alookup (getServiceKey ns name) m.svcPortMap).getD
                []) : PortNameMap).Difference newPorts :=
            Difference_mem (hpmcp ▸ alookup_mem hport) hnew
          have hkk : getSyncerKey ns name k.port k.targetPort = k := by
            cases k
            simp only at hkns hkname ⊢
            simp [getSyncerKey, hkns, hkname]
          have hstop := stopRemoves_mem ns name _ m.syncerMap k.port
            k.targetPort hremnodup hmemrem
          rw [hkk] at hstop
          rw [hstop, hl0] at hlk
          exact hstopped (by simpa using hlk.symm)
      · exact absurd hcase hstopped
    · obtain ⟨e, he, hkey⟩ := hsh
      rw [hkey]
      exact alookup_eq_of_fst_nodup_mem hnp (mem_Difference he).1
  · rw [EnsureSyncers_fst]
    simp only
    exact startAddsFold_fst_nodup ns name _ _ m.nextId []
      (stopRemoves_fst_nodup ns name _ m.syncerMap hD)

theorem ensureSyncers_registry_matches_ports_witness :
    ((([((80 : Int), "t")] : PortNameMap).map Prod.fst).Nodup) ∧
    (EnsureSyncers "n" "s" [((80 : Int), "t")] newSyncerManager).2 = none ∧
    (alookup (getServiceKey "n" "s")
      (EnsureSyncers "n" "s" [((80 : Int), "t")]
        newSyncerManager).1.svcPortMap = some [((80 : Int), "t")] ∧
    (∀ p t, (p, t) ∈ ([((80 : Int), "t")] : PortNameMap) →
      ∃ sy, alookup (getSyncerKey "n" "s" p t)
        (EnsureSyncers "n" "s" [((80 : Int), "t")]
          newSyncerManager).1.syncerMap = some sy ∧
        sy.stopped = false) ∧
    (∀ k sy, k.ns = "n" → k.name = "s" →
      alookup k (EnsureSyncers "n" "s" [((80 : Int), "t")]
        newSyncerManager).1.syncerMap = some sy →
      sy.stopped = false →
      alookup k.port ([((80 : Int), "t")] : PortNameMap) = some k.targetPort) ∧
    (∀ p t,
      alookup p (((alookup (getServiceKey "n" "s")
        newSyncerManager.svcPortMap).getD []) : PortNameMap) = some t →
      alookup p ([((80 : Int), "t")] : PortNameMap) = some t →
      alookup (getSyncerKey "n" "s" p t)
        (EnsureSyncers "n" "s" [((80 : Int), "t")]
          newSyncerManager).1.syncerMap =
        alookup (getSyncerKey "n" "s" p t) newSyncerManager.syncerMap) ∧
    ((EnsureSyncers "n" "s" [((80 : Int), "t")]
      newSyncerManager).1.syncerMap.map Prod.fst).Nodup) :=
  ⟨by decide, by decide,
    ensureSyncers_registry_matches_ports "n" "s" [((80 : Int), "t")]
      newSyncerManager Reachable.init (by decide) (by decide)
      (fun p t h hh => Option.noConfusion h)⟩

/-- C1 as stated is false on the code: starting from the fresh manager,
ensure the port `(80, "t")`, remove it (its syncer starts shutting
down), re-add it while the old syncer still shuts down (the manager
reuses the old object and `Start()` fails), let the shutdown complete,
and call `EnsureSyncers` once more with the same map.  That final call
returns no error — the diff against the stored map is empty so nothing
is started — yet the service's single registry entry for the
`(80, "t")` entry of `P` is a stopped, not Running, syncer. -/
theorem ensureSyncers_registry_matches_ports_counterexample :
    (EnsureSyncers "n" "s" [((80 : Int), "t")]
      (finishShutdownAt (getSyncerKey "n" "s" 80 "t")
        (EnsureSyncers "n" "s" [((80 : Int), "t")]
          (EnsureSyncers "n" "s" []
            (EnsureSyncers "n" "s" [((80 : Int), "t")]
              newSyncerManager).1).1).1)).2 = none ∧
    ((80 : Int), "t") ∈ ([((80 : Int), "t")] : PortNameMap) ∧
    alookup (getSyncerKey "n" "s" 80 "t")
      (EnsureSyncers "n" "s" [((80 : Int), "t")]
        (finishShutdownAt (getSyncerKey "n" "s" 80 "t")
          (EnsureSyncers "n" "s" [((80 : Int), "t")]
            (EnsureSyncers "n" "s" []
              (EnsureSyncers "n" "s" [((80 : Int), "t")]
                newSyncerManager).1).1).1)).1.syncerMap =
      some { id := 0, stopped := true, shuttingDown := false, pokes := 0 } := by
  refine ⟨?_, ?_, ?_⟩ <;> decide

/-- C3 (amended): when `EnsureSyncers` re-adds a key, a fresh syncer
object is constructed only when no syncer object for the key remains in
the registry; if the old syncer object is still registered — in
particular while it is still shutting down — the manager reuses that
very object (the registry entry keeps its identity) rather than
constructing a fresh one.  (As stated the claim is false — see the
counterexample.) -/
theorem ensureSyncers_reuse_or_fresh (ns name : String)
    (newPorts : PortNameMap) (m : syncerManager) (hre : Reachable m)
    (hnp : (newPorts.map Prod.fst).Nodup) (p : Int) (t : String)
    (hadd : (p, t) ∈ newPorts.Difference
      ((alookup (getServiceKey ns name) m.svcPortMap).getD [])) :
    (∀ sy, alookup (getSyncerKey ns name p t) m.syncerMap = some sy →
      ∃ sy1, alookup (getSyncerKey ns name p t)
        (EnsureSyncers ns name newPorts m).1.syncerMap = some sy1 ∧
        sy1.id = sy.id) ∧
    (alookup (getSyncerKey ns name p t) m.syncerMap = none →
      ∃ sy1, alookup (getSyncerKey ns name p t)
        (EnsureSyncers ns name newPorts m).1.syncerMap = some sy1 ∧
        m.nextId ≤ sy1.id ∧
        ∀ k0 sy0, alookup k0 m.syncerMap = some sy0 → ¬ sy0.id = sy1.id) := by
  obtain ⟨hA, hB, hC, hD⟩ := reachable_inv hre
  have haddsnodup := Difference_fst_nodup newPorts
    ((alookup (getServiceKey ns name) m.svcPortMap).getD []) hnp
  have hsmap1 : alookup (getSyncerKey ns name p t)
      (stopRemoves ns name
        (((alookup (getServiceKey ns name) m.svcPortMap).getD
          []).Difference newPorts) m.syncerMap) =
      alookup (getSyncerKey ns name p t) m.syncerMap :=
    stopRemoves_frame ns name _ _ _ (adds_removes_key_ne hnp hadd)
  constructor
  · intro sy hl
    rw [EnsureSyncers_fst]
    simp only
    have hsl : alookup (getSyncerKey ns name p t)
        (stopRemoves ns name
          (((alookup (getServiceKey ns name) m.svcPortMap).getD
            []).Difference newPorts) m.syncerMap) = some sy :=
      hsmap1.trans hl
    by_cases hs : sy.stopped = true
    · by_cases hsd : sy.shuttingDown = true
      · have := startAddsFold_mem_shuttingDown ns name _ _ m.nextId []
          p t sy haddsnodup hadd hsl hs hsd
        exact ⟨sy, this, rfl⟩
      · have := startAddsFold_mem_restart ns name _ _ m.nextId []
          p t sy haddsnodup hadd hsl hs (Bool.not_eq_true _ ▸ hsd)
        exact ⟨{ sy with stopped := false }, this, rfl⟩
    · have := startAddsFold_mem_running ns name _ _ m.nextId []
        p t sy haddsnodup hadd hsl (Bool.not_eq_true _ ▸ hs)
      exact ⟨sy, this, rfl⟩
  · intro hl
    rw [EnsureSyncers_fst]
    simp only
    obtain ⟨i, hi1, hi2, hi3⟩ := startAddsFold_mem_absent ns name _ _
      m.nextId [] p t haddsnodup hadd (hsmap1.trans hl)
    refine ⟨_, hi3, hi1, ?_⟩
    intro k0 sy0 hl0 hid
    have := hC k0 sy0 hl0
    simp only at hid
    omega

theorem ensureSyncers_reuse_or_fresh_witness :
    (((80 : Int), "t") ∈
      (PortNameMap.Difference [((80 : Int), "t")]
        ((alookup (getServiceKey "n" "s")
          (EnsureSyncers "n" "s" []
            (EnsureSyncers "n" "s" [((80 : Int), "t")]
              newSyncerManager).1).1.svcPortMap).getD []))) ∧
    ((∀ sy, alookup (getSyncerKey "n" "s" 80 "t")
        (EnsureSyncers "n" "s" []
          (EnsureSyncers "n" "s" [((80 : Int), "t")]
            newSyncerManager).1).1.syncerMap = some sy →
      ∃ sy1, alookup (getSyncerKey "n" "s" 80 "t")
        (EnsureSyncers "n" "s" [((80 : Int), "t")]
          (EnsureSyncers "n" "s" []
            (EnsureSyncers "n" "s" [((80 : Int), "t")]
              newSyncerManager).1).1).1.syncerMap = some sy1 ∧
        sy1.id = sy.id) ∧
    (alookup (getSyncerKey "n" "s" 80 "t")
        (EnsureSyncers "n" "s" []
          (EnsureSyncers "n" "s" [((80 : Int), "t")]
            newSyncerManager).1).1.syncerMap = none →
      ∃ sy1, alookup (getSyncerKey "n" "s" 80 "t")
        (EnsureSyncers "n" "s" [((80 : Int), "t")]
          (EnsureSyncers "n" "s" []
            (EnsureSyncers "n" "s" [((80 : Int), "t")]
              newSyncerManager).1).1).1.syncerMap = some sy1 ∧
        (EnsureSyncers "n" "s" []
          (EnsureSyncers "n" "s" [((80 : Int), "t")]
            newSyncerManager).1).1.nextId ≤ sy1.id ∧
        ∀ k0 sy0, alookup k0
          (EnsureSyncers "n" "s" []
            (EnsureSyncers "n" "s" [((80 : Int), "t")]
              newSyncerManager).1).1.syncerMap = some sy0 →
          ¬ sy0.id = sy1.id)) :=
  ⟨by decide,
    ensureSyncers_reuse_or_fresh "n" "s" [((80 : Int), "t")]
      (EnsureSyncers "n" "s" []
        (EnsureSyncers "n" "s" [((80 : Int), "t")] newSyncerManager).1).1
      (Reachable.ensure "n" "s" []
        (EnsureSyncers "n" "s" [((80 : Int), "t")] newSyncerManager).1
        (by decide)
        (Reachable.ensure "n" "s" [((80 : Int), "t")] newSyncerManager
          (by decide) Reachable.init))
      (by decide) 80 "t" (by decide)⟩

/-- C3 as stated is false on the code: re-adding key `(80, "t")` while
its old syncer (identity 0) is still shutting down does not construct a
fresh syncer object — the registry keeps the very same object (identity
0, still shutting down; a fresh object would have carried the unused
identity 1), and the `Start()` attempt on it fails. -/
theorem ensureSyncers_reuse_or_fresh_counterexample :
    alookup (getSyncerKey "n" "s" 80 "t")
      (EnsureSyncers "n" "s" []
        (EnsureSyncers "n" "s" [((80 : Int), "t")]
          newSyncerManager).1).1.syncerMap =
      some { id := 0, stopped := true, shuttingDown := true, pokes := 0 } ∧
    alookup (getSyncerKey "n" "s" 80 "t")
      (EnsureSyncers "n" "s" [((80 : Int), "t")]
        (EnsureSyncers "n" "s" []
          (EnsureSyncers "n" "s" [((80 : Int), "t")]
            newSyncerManager).1).1).1.syncerMap =
      some { id := 0, stopped := true, shuttingDown := true, pokes := 0 } ∧
    (EnsureSyncers "n" "s" []
      (EnsureSyncers "n" "s" [((80 : Int), "t")]
        newSyncerManager).1).1.nextId = 1 ∧
    (EnsureSyncers "n" "s" [((80 : Int), "t")]
      (EnsureSyncers "n" "s" []
        (EnsureSyncers "n" "s" [((80 : Int), "t")]
          newSyncerManager).1).1).2 =
      some [startErr.stillShuttingDown] := by
  refine ⟨?_, ?_, ?_, ?_⟩ <;> decide

/-! ## The cross-service frame property (claim C10) -/

theorem syncOne_lookup_ne {ns name : String}
    {mp : List (servicePort × negSyncer)} {e : Int × String} {k : servicePort}
    (hk : ¬ k = getSyncerKey ns name e.1 e.2) :
    alookup k (syncOne ns name mp e) = alookup k mp := by
  cases hl : alookup (getSyncerKey ns name e.1 e.2) mp with
  | none => rw [syncOne_none hl]
  | some sy1 =>
    rw [syncOne_some hl]
    by_cases hs : sy1.IsStopped = true
    · rw [if_neg (not_not_intro hs)]
    · rw [if_pos hs]
      exact alookup_aupdate_ne _ _ hk

theorem syncFold_frame (ns name : String) (ports : PortNameMap) :
    ∀ (mp : List (servicePort × negSyncer)) (k : servicePort),
      (∀ e : Int × String, ¬ k = getSyncerKey ns name e.1 e.2) →
      alookup k (ports.foldl (syncOne ns name) mp) = alookup k mp := by
  induction ports with
  | nil => intro mp k h; rfl
  | cons e rest ih =>
    intro mp k h
    rw [List.foldl_cons, ih _ k h]
    exact syncOne_lookup_ne (h e)

theorem otherServiceKeysNe {ns name ns1 name1 : String}
    (hne : ¬ getServiceKey ns1 name1 = getServiceKey ns name)
    {k : servicePort} (h1 : k.ns = ns1) (h2 : k.name = name1) :
    ∀ e : Int × String, ¬ k = getSyncerKey ns name e.1 e.2 := by
  intro e hc
  apply hne
  have hn : k.ns = ns := by rw [hc]; rfl
  have hm : k.name = name := by rw [hc]; rfl
  rw [← h1, ← h2, hn, hm]

/-- C10: for two distinct service keys, the operations
`EnsureSyncers(namespace, name, P)`, `StopSyncer(namespace, name)` and
`Sync(namespace, name)` leave the other service's stored port map and
every registry entry keyed by the other service unchanged. -/
theorem manager_ops_frame (ns name ns1 name1 : String)
    (newPorts : PortNameMap) (m : syncerManager)
    (hne : ¬ getServiceKey ns1 name1 = getServiceKey ns name) :
    alookup (getServiceKey ns1 name1)
      (EnsureSyncers ns name newPorts m).1.svcPortMap =
      alookup (getServiceKey ns1 name1) m.svcPortMap ∧
    (∀ k : servicePort, k.ns = ns1 → k.name = name1 →
      alookup k (EnsureSyncers ns name newPorts m).1.syncerMap =
        alookup k m.syncerMap) ∧
    alookup (getServiceKey ns1 name1) (StopSyncer ns name m).svcPortMap =
      alookup (getServiceKey ns1 name1) m.svcPortMap ∧
    (∀ k : servicePort, k.ns = ns1 → k.name = name1 →
      alookup k (StopSyncer ns name m).syncerMap = alookup k m.syncerMap) ∧
    alookup (getServiceKey ns1 name1) (Sync ns name m).svcPortMap =
      alookup (getServiceKey ns1 name1) m.svcPortMap ∧
    (∀ k : servicePort, k.ns = ns1 → k.name = name1 →
      alookup k (Sync ns name m).syncerMap = alookup k m.syncerMap) := by
  refine ⟨?_, ?_, ?_, ?_, ?_, ?_⟩
  · rw [EnsureSyncers_fst]
    simp only
    exact alookup_aupdate_ne _ _ hne
  · intro k h1 h2
    rw [EnsureSyncers_fst]
    simp only
    rw [startAddsFold_frame ns name _ _ _ _ _
      (fun e _ => otherServiceKeysNe hne h1 h2 e)]
    exact stopRemoves_frame ns name _ _ _
      (fun e _ => otherServiceKeysNe hne h1 h2 e)
  · unfold StopSyncer
    cases hl : alookup (getServiceKey ns name) m.svcPortMap with
    | none => rfl
    | some ports =>
      simp only
      exact alookup_aerase_ne _ hne
  · intro k h1 h2
    unfold StopSyncer
    cases hl : alookup (getServiceKey ns name) m.svcPortMap with
    | none => rfl
    | some ports =>
      simp only
      exact stopRemoves_frame ns name _ _ _
        (fun e _ => otherServiceKeysNe hne h1 h2 e)
  · unfold Sync
    cases hl : alookup (getServiceKey ns name) m.svcPortMap with
    | none => rfl
    | some ports => rfl
  · intro k h1 h2
    unfold Sync
    cases hl : alookup (getServiceKey ns name) m.svcPortMap with
    | none => rfl
    | some ports =>
      simp only
      exact syncFold_frame ns name ports m.syncerMap k
        (otherServiceKeysNe hne h1 h2)

theorem manager_ops_frame_witness :
    (¬ getServiceKey "a" "b" = getServiceKey "n" "s") ∧
    (alookup (getServiceKey "a" "b")
      (EnsureSyncers "n" "s" [((80 : Int), "t")]
        (EnsureSyncers "a" "b" [((443 : Int), "u")]
          newSyncerManager).1).1.svcPortMap =
      alookup (getServiceKey "a" "b")
        (EnsureSyncers "a" "b" [((443 : Int), "u")]
          newSyncerManager).1.svcPortMap ∧
    (∀ k : servicePort, k.ns = "a" → k.name = "b" →
      alookup k (EnsureSyncers "n" "s" [((80 : Int), "t")]
        (EnsureSyncers "a" "b" [((443 : Int), "u")]
          newSyncerManager).1).1.syncerMap =
        alookup k (EnsureSyncers "a" "b" [((443 : Int), "u")]
          newSyncerManager).1.syncerMap) ∧
    alookup (getServiceKey "a" "b")
      (StopSyncer "n" "s" (EnsureSyncers "a" "b" [((443 : Int), "u")]
        newSyncerManager).1).svcPortMap =
      alookup (getServiceKey "a" "b")
        (EnsureSyncers "a" "b" [((443 : Int), "u")]
          newSyncerManager).1.svcPortMap ∧
    (∀ k : servicePort, k.ns = "a" → k.name = "b" →
      alookup k (StopSyncer "n" "s" (EnsureSyncers "a" "b"
        [((443 : Int), "u")] newSyncerManager).1).syncerMap =
        alookup k (EnsureSyncers "a" "b" [((443 : Int), "u")]
          newSyncerManager).1.syncerMap) ∧
    alookup (getServiceKey "a" "b")
      (Sync "n" "s" (EnsureSyncers "a" "b" [((443 : Int), "u")]
        newSyncerManager).1).svcPortMap =
      alookup (getServiceKey "a" "b")
        (EnsureSyncers "a" "b" [((443 : Int), "u")]
          newSyncerManager).1.svcPortMap ∧
    (∀ k : servicePort, k.ns = "a" → k.name = "b" →
      alookup k (Sync "n" "s" (EnsureSyncers "a" "b" [((443 : Int), "u")]
        newSyncerManager).1).syncerMap =
        alookup k (EnsureSyncers "a" "b" [((443 : Int), "u")]
          newSyncerManager).1.syncerMap)) :=
  ⟨by decide,
    manager_ops_frame "n" "s" "a" "b" [((80 : Int), "t")]
      (EnsureSyncers "a" "b" [((443 : Int), "u")] newSyncerManager).1
      (by decide)⟩

end NegController
